import Mathlib

/-!
Verification of the research-orchestration engine of the google-research
MCP server (`src/index.ts`) against its natural-language specification.

Strings from the TypeScript code are modelled as `List Char` (`.data` of a
Lean string literal); JavaScript string/array operations are translated to
the corresponding list operations.  JavaScript number arithmetic inside the
coverage score is modelled with exact rationals (ℚ), `Math.round` as
`fun q => ⌊q + 1/2⌋`, and `Math.min` as `min`.  JavaScript `Map` / `Set`
objects are modelled as association lists / duplicate-free lists in
insertion order, which matches their iteration semantics.
-/

/-- Converts a Lean string literal to the `List Char` representation used
throughout this development. -/
def strChars (s : String) : List Char := s.data

/-- JavaScript `Math.round` on an exact rational: round half toward
positive infinity (`Math.round(x) = Math.floor(x + 0.5)`). -/
def jsRound (q : ℚ) : Int := ⌊q + 1/2⌋

/-- JavaScript `needle.includes`-style substring test (`String.prototype.includes`),
as list-infix containment. -/
def containsSub (needle hay : List Char) : Bool := decide (needle <:+: hay)

/-- JavaScript `toLowerCase`, modelled characterwise (ASCII letters). -/
def lowerChars (l : List Char) : List Char := l.map Char.toLower

/-- The quality tiers of `ResearchSource.qualityTier` in `src/index.ts`. -/
inductive Tier where
  | primary
  | authoritative
  | quality
  | general
  | low
deriving DecidableEq, Repr

/-- The tier name as it is interpolated into report strings. -/
def tierChars : Tier → List Char
  | Tier.primary => strChars "primary"
  | Tier.authoritative => strChars "authoritative"
  | Tier.quality => strChars "quality"
  | Tier.general => strChars "general"
  | Tier.low => strChars "low"

/-- `ResearchSource` from `src/index.ts` (the `fetchedAt` wall-clock field is
kept as plain data). -/
structure Source where
  title : List Char
  url : List Char
  snippet : List Char
  content : List Char
  qualityScore : Nat
  qualityTier : Tier
  domain : List Char
  contentLength : Nat
  fetchedAt : Nat
  aspect : Option (List Char)
  citationId : Option Nat
deriving DecidableEq, Repr

/-- Subagent lifecycle status from `src/index.ts`. -/
inductive SubStatus where
  | pending
  | searching
  | evaluating
  | completed
  | failed
deriving DecidableEq, Repr

/-- `Subagent` from `src/index.ts` (timing fields omitted: wall-clock only). -/
structure Subagent where
  aspect : List Char
  status : SubStatus
  queries : List (List Char)
  sources : List Source
  findings : List (List Char)
deriving DecidableEq, Repr

/-- The `continue`/`exit` decision of an iteration evaluation. -/
inductive Decision where
  | cont
  | exit
deriving DecidableEq, Repr

/-- `IterationResult` from `src/index.ts`. -/
structure IterationResult where
  iteration : Nat
  aspectsResearched : List (List Char)
  sourcesFound : Nat
  coverageScore : Int
  gaps : List (List Char)
  decision : Decision
  reasoning : List Char
deriving DecidableEq, Repr

/-- `MemoryModule` from `src/index.ts`: `context` and `findings` are JS
`Map`s (association lists in insertion order), `aspectsCovered` a JS `Set`
(duplicate-free list in insertion order). -/
structure MemoryModule where
  plan : List (List Char)
  context : List (List Char × List Char)
  findings : List (List Char × List (List Char))
  gaps : List (List Char)
  aspectsCovered : List (List Char)
  iterationHistory : List IterationResult
deriving DecidableEq, Repr

/-- Session lifecycle status from `src/index.ts`. -/
inductive Status where
  | planning
  | researching
  | evaluating
  | synthesizing
  | citing
  | completed
deriving DecidableEq, Repr

/-- Research depth tier. -/
inductive Depth where
  | basic
  | moderate
  | comprehensive
deriving DecidableEq, Repr

/-- `ResearchSession` from `src/index.ts` (id and wall-clock start time
omitted; the generated report strings are handled functionally by
`insertCitations`). -/
structure Session where
  topic : List Char
  sources : List Source
  subagents : List Subagent
  memory : MemoryModule
  iteration : Nat
  maxIterations : Nat
  status : Status
  depth : Depth
deriving DecidableEq, Repr

/-- `COVERAGE_THRESHOLDS` from `src/index.ts`. -/
def coverageThreshold : Depth → Int
  | Depth.basic => 60
  | Depth.moderate => 75
  | Depth.comprehensive => 90

/-- `MIN_SOURCES_PER_ASPECT` from `src/index.ts`. -/
def minSourcesPerAspect : Depth → Nat
  | Depth.basic => 2
  | Depth.moderate => 3
  | Depth.comprehensive => 5

/-- The `maxIter` computation in `createSession` from `src/index.ts`. -/
def maxIterationsFor : Depth → Nat
  | Depth.basic => 2
  | Depth.moderate => 3
  | Depth.comprehensive => 4

/-- `thinkPlanApproach` from `src/index.ts`: decompose a topic into aspect
strings; 2 aspects for basic, 5 for moderate, 11 for comprehensive. -/
def thinkPlanApproach (topic : List Char) (depth : Depth) : List (List Char) :=
  let core := [topic ++ strChars " overview definition",
               topic ++ strChars " how it works mechanism"]
  match depth with
  | Depth.basic => core
  | Depth.moderate =>
      core ++ [topic ++ strChars " use cases applications",
               topic ++ strChars " benefits advantages",
               topic ++ strChars " challenges limitations problems"]
  | Depth.comprehensive =>
      core ++ [topic ++ strChars " use cases applications",
               topic ++ strChars " benefits advantages",
               topic ++ strChars " challenges limitations problems",
               topic ++ strChars " history evolution development",
               topic ++ strChars " comparison alternatives vs",
               topic ++ strChars " implementation technical details",
               topic ++ strChars " future trends predictions",
               topic ++ strChars " research papers academic",
               topic ++ strChars " case studies examples real world"]

/-- The insert-if-key-absent fold shared by the source-merge loops in
`thinkSynthesizeAndEvaluate` and the `run_subagent` tool
(`if (!session.sources.some(s => s.url === source.url)) session.sources.push(source)`),
generalised over the deduplication key. -/
def insertAllBy {α β : Type} [DecidableEq β] (key : α → β) (ex inc : List α) : List α :=
  inc.foldl (fun acc x => if key x ∈ acc.map key then acc else acc ++ [x]) ex

/-- The URL-deduplicating source merge of `src/index.ts`. -/
def mergeSourceList (ex inc : List Source) : List Source :=
  insertAllBy (fun s => s.url) ex inc

/-- JS `Set.prototype.add`: append the element unless already present. -/
def addCovered (covered : List (List Char)) (a : List Char) : List (List Char) :=
  insertAllBy (fun x => x) covered [a]

/-- JS `Map.prototype.get` with `|| []` default, for the findings map. -/
def findingsGet (m : List (List Char × List (List Char))) (k : List Char) :
    List (List Char) :=
  ((m.find? fun p => decide (p.1 = k)).map (fun p => p.2)).getD []

/-- JS `Map.prototype.set`: replace in place if the key exists, else append. -/
def mapSet (m : List (List Char × List (List Char))) (k : List Char)
    (v : List (List Char)) : List (List Char × List (List Char)) :=
  if m.any (fun p => decide (p.1 = k)) then
    m.map (fun p => if p.1 = k then (k, v) else p)
  else m ++ [(k, v)]

/-- JS `String.prototype.split(' ')`: split on every single space character
(consecutive spaces yield empty chunks); always returns at least one chunk. -/
def splitSp : List Char → List (List Char)
  | [] => [[]]
  | c :: rest =>
      if c = ' ' then [] :: splitSp rest
      else
        match splitSp rest with
        | chunk :: chunks => (c :: chunk) :: chunks
        | [] => [[c]]

/-- JS `Array.prototype.join(sep)`. -/
def joinWith (sep : List Char) : List (List Char) → List Char
  | [] => []
  | [x] => x
  | x :: y :: rest => x ++ sep ++ joinWith sep (y :: rest)

/-- JavaScript line terminators — the characters a regex `.` does not
match: U+000A, U+000D, U+2028 and U+2029. -/
def isLineTerminator (c : Char) : Bool :=
  decide (c = '\n' ∨ c = '\r' ∨ c = '\u2028' ∨ c = '\u2029')

/-- The regex match `/: (.+)$/` used by `getAspectsForIteration` to parse a
gap string back into an aspect label.  Because `.` does not match line
terminators and `$` (no `m` flag) anchors only at the end of input, the
regex matches at the leftmost `": "` whose entire remaining suffix is
nonempty and free of line terminators, capturing that suffix; a `": "`
whose suffix contains a line terminator cannot match and scanning moves on. -/
def parseGap : List Char → Option (List Char)
  | [] => none
  | [_] => none
  | c1 :: c2 :: rest =>
      if c1 = ':' ∧ c2 = ' ' ∧ rest ≠ [] ∧
          rest.all (fun c => !isLineTerminator c) = true then some rest
      else parseGap (c2 :: rest)

/-- JS `[...new Set(list)]`: deduplicate keeping first occurrences. -/
def jsDedup : List (List Char) → List (List Char)
  | [] => []
  | a :: rest => a :: jsDedup (rest.filter fun b => decide (¬ b = a))
termination_by l => l.length
decreasing_by
  simp only [List.length_cons]
  exact Nat.lt_succ_of_le (List.length_filter_le _ _)

/-- `generateAspectQueries` from `src/index.ts`: the aspect verbatim, then
either two refinement queries (when prior findings exist) or one broadening
query (topic plus the aspect's last two words), then up to two gap queries
taken from the gaps that contain the aspect's first word (case-insensitive). -/
def generateAspectQueries (aspect : List Char) (s : Session) : List (List Char) :=
  let topic := s.topic
  let queries := [aspect]
  let previousFindings := findingsGet s.memory.findings aspect
  let queries := queries ++
    (if previousFindings.length > 0 then
      [aspect ++ strChars " detailed explanation",
       aspect ++ strChars " expert analysis"]
    else
      [topic ++ strChars " " ++
        joinWith (strChars " ")
          ((splitSp aspect).drop ((splitSp aspect).length - 2))])
  let relevantGaps := s.memory.gaps.filter fun g =>
    containsSub (lowerChars ((splitSp aspect).headD [])) (lowerChars g)
  queries ++ (relevantGaps.take 2).map (fun g => topic ++ strChars " " ++ g)

/-- `calculateCoverageScore` from `src/index.ts`: 50 scaled by the covered
fraction of the planned aspects, plus 5 per primary source capped at 25,
plus 3 per authoritative source capped at 15, plus a 10/5 content-volume
bonus, rounded and clamped to at most 100. -/
def calculateCoverageScore (s : Session) : Int :=
  let aspects := thinkPlanApproach s.topic s.depth
  let coveredAspects : Nat := s.memory.aspectsCovered.length
  let totalAspects : Nat := aspects.length
  let primarySources : Nat :=
    (s.sources.filter fun src => decide (src.qualityTier = Tier.primary)).length
  let authoritativeSources : Nat :=
    (s.sources.filter fun src => decide (src.qualityTier = Tier.authoritative)).length
  let totalContent : Nat := (s.sources.map (fun src => src.contentLength)).sum
  let score : ℚ := (coveredAspects : ℚ) / (totalAspects : ℚ) * 50
  let score : ℚ := score + min ((primarySources : ℚ) * 5) 25
  let score : ℚ := score + min ((authoritativeSources : ℚ) * 3) 15
  let score : ℚ :=
    score + (if totalContent > 100000 then 10 else if totalContent > 50000 then 5 else 0)
  min (jsRound score) 100

/-- The gap string `Missing coverage: {aspect}`. -/
def missingGapFor (a : List Char) : List Char := strChars "Missing coverage: " ++ a

/-- The gap string `Insufficient sources for: {aspect}`. -/
def insufficientGapFor (a : List Char) : List Char :=
  strChars "Insufficient sources for: " ++ a

/-- The gap string `No primary sources for: {aspect}`. -/
def noPrimaryGapFor (a : List Char) : List Char :=
  strChars "No primary sources for: " ++ a

/-- The gaps contributed by one planned aspect in `identifyGaps`. -/
def gapsForAspect (s : Session) (aspect : List Char) : List (List Char) :=
  if aspect ∈ s.memory.aspectsCovered then
    let aspectSources := s.sources.filter fun src => decide (src.aspect = some aspect)
    (if aspectSources.length < minSourcesPerAspect s.depth then
      [insufficientGapFor aspect]
    else []) ++
    (if (aspectSources.filter fun src =>
          decide (src.qualityTier = Tier.primary)).length = 0 ∧
        s.depth = Depth.comprehensive then
      [noPrimaryGapFor aspect]
    else [])
  else [missingGapFor aspect]

/-- `identifyGaps` from `src/index.ts`: one pass over the planned aspects,
emitting missing-coverage / insufficient-sources / no-primary-sources gaps. -/
def identifyGaps (s : Session) : List (List Char) :=
  (thinkPlanApproach s.topic s.depth).flatMap (gapsForAspect s)

/-- Decimal digits of a natural number, as interpolated by JS template strings. -/
def natChars (n : Nat) : List Char := (Nat.repr n).data

/-- Decimal digits of an integer score. -/
def intChars (n : Int) : List Char := (Int.repr n).data

/-- The exit reasoning string of the coverage-threshold branch in
`thinkSynthesizeAndEvaluate`. -/
def thresholdReasoning (cov threshold : Int) (nSources : Nat) : List Char :=
  strChars "Coverage score " ++ intChars cov ++ strChars "% meets threshold " ++
    intChars threshold ++ strChars "%. " ++ natChars nSources ++
    strChars " sources collected."

/-- The exit reasoning string of the max-iterations branch in
`thinkSynthesizeAndEvaluate`. -/
def maxIterationsReasoning (maxIter : Nat) (cov : Int) : List Char :=
  strChars "Max iterations (" ++ natChars maxIter ++ strChars ") reached. Coverage: " ++
    intChars cov ++ strChars "%"

/-- The exit reasoning string of the no-gaps branch in
`thinkSynthesizeAndEvaluate`. -/
def noGapsReasoning (cov : Int) : List Char :=
  strChars "No significant gaps identified. Coverage: " ++ intChars cov ++ strChars "%"

/-- The continue reasoning string in `thinkSynthesizeAndEvaluate`. -/
def continueReasoning (cov threshold : Int) (gaps : List (List Char)) : List Char :=
  strChars "Coverage " ++ intChars cov ++ strChars "% below threshold " ++
    intChars threshold ++ strChars "%. Gaps: " ++ joinWith (strChars ", ") (gaps.take 3)

/-- The per-subagent merge body of the collection loop in
`thinkSynthesizeAndEvaluate`: URL-dedup the subagent's sources into the
session, append its findings under its aspect key, mark the aspect covered. -/
def mergeSubagent (s : Session) (sa : Subagent) : Session :=
  { s with
    sources := mergeSourceList s.sources sa.sources
    memory := { s.memory with
      findings := mapSet s.memory.findings sa.aspect
        (findingsGet s.memory.findings sa.aspect ++ sa.findings)
      aspectsCovered := addCovered s.memory.aspectsCovered sa.aspect } }

/-- The full collection loop of `thinkSynthesizeAndEvaluate` over all of the
session's subagents. -/
def mergeStep (s : Session) : Session := s.subagents.foldl mergeSubagent s

/-- The aspects of all completed subagents, computed at the top of
`thinkSynthesizeAndEvaluate`. -/
def aspectsResearchedOf (s : Session) : List (List Char) :=
  (s.subagents.filter fun sa => decide (sa.status = SubStatus.completed)).map
    (fun sa => sa.aspect)

/-- `thinkSynthesizeAndEvaluate` from `src/index.ts`: merge all subagent
results into the session, recompute coverage and gaps, decide
continue/exit by the four-branch rule, and append the IterationResult. -/
def thinkSynthesizeAndEvaluate (s : Session) : Session × IterationResult :=
  let iteration := s.iteration
  let aspectsResearched := aspectsResearchedOf s
  let s := mergeStep s
  let coverageScore := calculateCoverageScore s
  let gaps := identifyGaps s
  let s := { s with memory := { s.memory with gaps := gaps } }
  let threshold := coverageThreshold s.depth
  let minSources := minSourcesPerAspect s.depth * aspectsResearched.length
  let decisionReasoning : Decision × List Char :=
    if coverageScore ≥ threshold ∧ s.sources.length ≥ minSources then
      (Decision.exit, thresholdReasoning coverageScore threshold s.sources.length)
    else if iteration ≥ s.maxIterations - 1 then
      (Decision.exit, maxIterationsReasoning s.maxIterations coverageScore)
    else if gaps = [] then
      (Decision.exit, noGapsReasoning coverageScore)
    else
      (Decision.cont, continueReasoning coverageScore threshold gaps)
  let result : IterationResult :=
    { iteration := iteration
      aspectsResearched := aspectsResearched
      sourcesFound := s.sources.length
      coverageScore := coverageScore
      gaps := gaps
      decision := decisionReasoning.1
      reasoning := decisionReasoning.2 }
  ({ s with memory := { s.memory with
      iterationHistory := s.memory.iterationHistory ++ [result] } }, result)

/-- `getAspectsForIteration` from `src/index.ts`: first iteration takes up
to 3 uncovered aspects; later iterations parse aspect labels back out of
the missing-coverage / insufficient gaps, merge them with the uncovered
aspects, deduplicate, and take up to 4. -/
def getAspectsForIteration (s : Session) (allAspects : List (List Char)) :
    List (List Char) :=
  let uncoveredAspects := allAspects.filter fun a =>
    decide (¬ a ∈ s.memory.aspectsCovered)
  if s.iteration = 0 then
    uncoveredAspects.take (min 3 uncoveredAspects.length)
  else
    let gapAspects := (s.memory.gaps.filter fun g =>
      containsSub (strChars "Missing coverage") g ||
        containsSub (strChars "Insufficient") g).filterMap parseGap
    let aspectsToResearch := jsDedup (gapAspects ++ uncoveredAspects)
    aspectsToResearch.take (min 4 aspectsToResearch.length)

/-- `createSession` from `src/index.ts` (id and wall-clock fields omitted). -/
def createSession (topic : List Char) (depth : Depth) : Session :=
  { topic := topic
    sources := []
    subagents := []
    memory := { plan := [], context := [], findings := [], gaps := [],
                aspectsCovered := [], iterationHistory := [] }
    iteration := 0
    maxIterations := maxIterationsFor depth
    status := Status.planning
    depth := depth }

/-- `savePlanToMemory` from `src/index.ts`. -/
def savePlanToMemory (s : Session) (plan : List (List Char)) : Session :=
  { s with memory := { s.memory with
      plan := plan
      context := s.memory.context ++ [(strChars "plan", joinWith (strChars "; ") plan)] } }

/-- `createSubagent` followed by `executeSubagent` in the environment where
every `googleSearch` call returns an empty result list: the subagent keeps
its generated queries, collects no sources, extracts no findings, and ends
`completed`. -/
def executeSubagentEmptySearch (s : Session) (aspect : List Char) : Subagent :=
  { aspect := aspect
    status := SubStatus.completed
    queries := generateAspectQueries aspect s
    sources := []
    findings := [] }

/-- One research pass of `executeMultiAgentResearch` under the always-empty
search provider, up to the evaluation call: mark the session researching,
select the aspects for this iteration, spawn one completed subagent per
selected aspect (all with empty sources and findings), and mark the session
evaluating. -/
def researchPassEmptySearch (s : Session) (aspects : List (List Char)) : Session :=
  { s with
    subagents := s.subagents ++
      (getAspectsForIteration { s with status := Status.researching } aspects).map
        (executeSubagentEmptySearch { s with status := Status.researching })
    status := Status.evaluating }

/-- One guarded pass plus the remainder of the `while` loop of
`executeMultiAgentResearch` under the always-empty search provider.  The
fuel argument equals `maxIterations - iteration` on every call, so the
guard and the fuel run out together. -/
def runLoopEmptySearch : Nat → List (List Char) → Session → Session
  | 0, _, s => s
  | fuel + 1, aspects, s =>
      if s.iteration < s.maxIterations then
        if getAspectsForIteration { s with status := Status.researching } aspects = [] then
          { s with status := Status.researching }
        else if (thinkSynthesizeAndEvaluate
            (researchPassEmptySearch s aspects)).2.decision = Decision.exit then
          (thinkSynthesizeAndEvaluate (researchPassEmptySearch s aspects)).1
        else
          runLoopEmptySearch fuel aspects
            { (thinkSynthesizeAndEvaluate (researchPassEmptySearch s aspects)).1 with
              iteration :=
                (thinkSynthesizeAndEvaluate (researchPassEmptySearch s aspects)).1.iteration + 1 }
      else s

/-- A stable descending insertion by quality score: the inserted element
goes after every element of strictly higher score and before the first
element of lower-or-equal... (precisely: before the first element whose
score is not strictly greater), so equal-score elements keep their original
relative order. -/
def insertDesc (x : Source) : List Source → List Source
  | [] => [x]
  | y :: l => if x.qualityScore < y.qualityScore then y :: insertDesc x l else x :: y :: l

/-- Stable sort by quality score descending, modelling the (stable)
`Array.prototype.sort((a, b) => b.qualityScore - a.qualityScore)` call in
`citationAgentProcess`. -/
def sortByScoreDesc : List Source → List Source
  | [] => []
  | x :: l => insertDesc x (sortByScoreDesc l)

/-- The `forEach` assignment `source.citationId = index + 1` over the
sorted source array. -/
def assignIds : Nat → List Source → List Source
  | _, [] => []
  | n, src :: rest => { src with citationId := some n } :: assignIds (n + 1) rest

/-- `citationAgentProcess` from `src/index.ts`, restricted to its effect on
the session source collection: sort all merged sources by quality score
descending (stable) and assign citation ids 1..N in that order. -/
def citationAgentProcess (sources : List Source) : List Source :=
  assignIds 1 (sortByScoreDesc sources)

/-- `executeMultiAgentResearch` from `src/index.ts`, under the always-empty
search provider: plan, run the iterative loop, then synthesize and run the
citation agent (which re-sorts the — here empty — source collection), and
mark the session completed.  The generated report text has no effect on
session state and is not tracked here. -/
def executeMultiAgentResearchEmptySearch (s : Session) : Session :=
  let s := { s with status := Status.planning }
  let aspects := thinkPlanApproach s.topic s.depth
  let s := savePlanToMemory s aspects
  let s := runLoopEmptySearch (s.maxIterations - s.iteration) aspects s
  let s := { s with status := Status.synthesizing }
  let s := { s with status := Status.citing, sources := citationAgentProcess s.sources }
  { s with status := Status.completed }

/-- The full `google_research` run under the always-empty search provider:
`createSession` followed by `executeMultiAgentResearch`. -/
def runEmptySearch (topic : List Char) (depth : Depth) : Session :=
  executeMultiAgentResearchEmptySearch (createSession topic depth)

/-- Sentence-ending punctuation, the `[.!?]` class of the citation regexes. -/
def isPunctChar (c : Char) : Bool := decide (c = '.' ∨ c = '!' ∨ c = '?')

/-- ASCII whitespace, modelling the `\s` class in the sentence splitter. -/
def isWsChar (c : Char) : Bool :=
  decide (c = ' ' ∨ c = '\n' ∨ c = '\t' ∨ c = '\r' ∨ c = '\x0b' ∨ c = '\x0c')

mutual

/-- Accumulating scan for `report.split(/(?<=[.!?])\s+/)`: a whitespace run
immediately after sentence punctuation is a separator. -/
def splitSentencesGo : List Char → List Char → List (List Char)
  | [], acc => [acc.reverse]
  | c :: rest, acc =>
      if isWsChar c ∧ (match acc with | p :: _ => isPunctChar p | [] => false) = true then
        splitSentencesSkip rest acc.reverse
      else splitSentencesGo rest (c :: acc)

/-- Consume the rest of a whitespace separator run, then resume scanning. -/
def splitSentencesSkip : List Char → List Char → List (List Char)
  | [], done => [done, []]
  | c :: rest, done =>
      if isWsChar c then splitSentencesSkip rest done
      else done :: splitSentencesGo rest [c]

end

/-- JS `report.split(/(?<=[.!?])\s+/)` from `insertCitations`. -/
def splitSentences (report : List Char) : List (List Char) :=
  splitSentencesGo report []

/-- The inline citation marker string `[id]`. -/
def markerChars (id : Nat) : List Char :=
  strChars "[" ++ natChars id ++ strChars "]"

/-- The JS truthiness test `source.citationId && ...`: an absent id and the
number 0 are both falsy. -/
def citationIdTruthy : Option Nat → Bool
  | none => false
  | some id => decide (id ≠ 0)

/-- Whether a sentence textually matches a source: it contains the source's
domain or the first 30 characters of the source's title, case-insensitively. -/
def sentenceMatches (src : Source) (sentence : List Char) : Bool :=
  containsSub (lowerChars src.domain) (lowerChars sentence) ||
    containsSub ((lowerChars src.title).take 30) (lowerChars sentence)

/-- The regex replacement `citedSentence.replace(/([.!?])$/, ` [id]$1`)`:
insert a space and the marker just before a trailing punctuation character;
a sentence with no trailing punctuation is returned unchanged. -/
def appendMarkerBeforePunct (id : Nat) (sentence : List Char) : List Char :=
  match sentence.getLast? with
  | some last =>
      if isPunctChar last then
        sentence.dropLast ++ strChars " " ++ markerChars id ++ [last]
      else sentence
  | none => sentence

/-- The inner source loop of `insertCitations` for one sentence: scan the
sources in order; on the first textual match whose marker is not already in
the sentence, insert the marker before the trailing punctuation and stop; a
match whose marker is already present does not stop the scan. -/
def processSentence (sources : List Source) (sentence : List Char) : List Char :=
  match sources with
  | [] => sentence
  | src :: rest =>
      match src.citationId with
      | some id =>
          if citationIdTruthy (some id) ∧ sentenceMatches src sentence = true then
            if containsSub (markerChars id) sentence then processSentence rest sentence
            else appendMarkerBeforePunct id sentence
          else processSentence rest sentence
      | none => processSentence rest sentence

/-- One `[id] title. url (tier)` line of the References section, emitted for
every source with a truthy citation id. -/
def refLine (src : Source) : List Char :=
  match src.citationId with
  | some id =>
      if citationIdTruthy (some id) then
        strChars "[" ++ natChars id ++ strChars "] " ++ src.title ++ strChars ". " ++
          src.url ++ strChars " (" ++ tierChars src.qualityTier ++ strChars ")\n"
      else []
  | none => []

/-- The References section appended by `insertCitations`: the header plus one
line per source with a citation id. -/
def referencesSection (sources : List Source) : List Char :=
  strChars "\n\n## References\n\n" ++ (sources.map refLine).flatten

/-- `insertCitations` from `src/index.ts`: split the report into sentences,
run the per-sentence citation scan, re-join with single spaces, and append
the References section for all sources. -/
def insertCitations (report : List Char) (sources : List Source) : List Char :=
  joinWith (strChars " ") ((splitSentences report).map (processSentence sources)) ++
    referencesSection sources

/-- The `add_source` tool handler's effect on the session source collection
(`session.sources.push(source)` with no deduplication check). -/
def addSource (s : Session) (src : Source) : Session :=
  { s with sources := s.sources ++ [src] }

theorem insertAllBy_nil {α β : Type} [DecidableEq β] (key : α → β) (ex : List α) :
    insertAllBy key ex [] = ex := rfl

theorem insertAllBy_cons {α β : Type} [DecidableEq β] (key : α → β) (ex : List α)
    (x : α) (inc : List α) :
    insertAllBy key ex (x :: inc) =
      insertAllBy key (if key x ∈ ex.map key then ex else ex ++ [x]) inc := rfl

theorem isPrefix_insertAllBy {α β : Type} [DecidableEq β] (key : α → β)
    (inc : List α) : ∀ ex : List α, ex <+: insertAllBy key ex inc := by
  induction inc with
  | nil => intro ex; exact List.prefix_rfl
  | cons x inc ih =>
      intro ex
      rw [insertAllBy_cons]
      by_cases h : key x ∈ ex.map key
      · simpa [h] using ih ex
      · have h2 := ih (ex ++ [x])
        simp only [h, if_neg, if_false] at *
        exact List.IsPrefix.trans (List.prefix_append ex [x]) h2

theorem mem_map_key_insertAllBy {α β : Type} [DecidableEq β] (key : α → β)
    (inc : List α) (b : β) : ∀ ex : List α,
    (b ∈ (insertAllBy key ex inc).map key ↔ b ∈ ex.map key ∨ b ∈ inc.map key) := by
  induction inc with
  | nil => intro ex; simp [insertAllBy_nil]
  | cons x inc ih =>
      intro ex
      rw [insertAllBy_cons]
      by_cases h : key x ∈ ex.map key
      · rw [if_pos h, ih]
        constructor
        · rintro (hb | hb)
          · exact Or.inl hb
          · exact Or.inr (by simp [hb])
        · rintro (hb | hb)
          · exact Or.inl hb
          · simp only [List.map_cons, List.mem_cons] at hb
            rcases hb with hb | hb
            · exact Or.inl (hb ▸ h)
            · exact Or.inr hb
      · rw [if_neg h, ih]
        simp only [List.map_append, List.mem_append, List.map_cons, List.mem_cons,
          List.map_nil, List.mem_singleton, List.not_mem_nil, or_false]
        tauto

theorem insertAllBy_eq_self {α β : Type} [DecidableEq β] (key : α → β)
    (inc : List α) : ∀ ex : List α, (∀ x ∈ inc, key x ∈ ex.map key) →
    insertAllBy key ex inc = ex := by
  induction inc with
  | nil => intro ex _; rfl
  | cons x inc ih =>
      intro ex h
      rw [insertAllBy_cons, if_pos (h x (by simp))]
      exact ih ex fun y hy => h y (by simp [hy])

theorem mem_key_insertAllBy_of_mem {α β : Type} [DecidableEq β] (key : α → β)
    (inc : List α) : ∀ ex : List α, ∀ x ∈ inc, key x ∈ (insertAllBy key ex inc).map key := by
  intro ex x hx
  exact (mem_map_key_insertAllBy key inc (key x) ex).mpr (Or.inr (List.mem_map_of_mem _ hx))

theorem insertAllBy_idem {α β : Type} [DecidableEq β] (key : α → β)
    (ex inc : List α) :
    insertAllBy key (insertAllBy key ex inc) inc = insertAllBy key ex inc :=
  insertAllBy_eq_self key inc _ fun x hx => mem_key_insertAllBy_of_mem key inc ex x hx

theorem nodup_map_key_insertAllBy {α β : Type} [DecidableEq β] (key : α → β)
    (inc : List α) : ∀ ex : List α, (ex.map key).Nodup →
    ((insertAllBy key ex inc).map key).Nodup := by
  induction inc with
  | nil => intro ex h; exact h
  | cons x inc ih =>
      intro ex h
      rw [insertAllBy_cons]
      by_cases hx : key x ∈ ex.map key
      · rw [if_pos hx]; exact ih ex h
      · rw [if_neg hx]
        refine ih _ ?_
        simp only [List.map_append, List.map_cons, List.map_nil]
        refine List.Nodup.append h (List.nodup_singleton _) ?_
        intro b hb hbx
        rw [List.mem_singleton] at hbx
        exact hx (hbx ▸ hb)

theorem mem_of_mem_insertAllBy {α β : Type} [DecidableEq β] (key : α → β)
    (inc : List α) : ∀ ex : List α, ∀ x ∈ insertAllBy key ex inc, x ∈ ex ∨ x ∈ inc := by
  induction inc with
  | nil => intro ex x hx; exact Or.inl hx
  | cons y inc ih =>
      intro ex x hx
      rw [insertAllBy_cons] at hx
      by_cases h : key y ∈ ex.map key
      · rw [if_pos h] at hx
        rcases ih ex x hx with h2 | h2
        · exact Or.inl h2
        · exact Or.inr (by simp [h2])
      · rw [if_neg h] at hx
        rcases ih (ex ++ [y]) x hx with h2 | h2
        · rcases List.mem_append.mp h2 with h3 | h3
          · exact Or.inl h3
          · exact Or.inr (by simpa using Or.inl (List.mem_singleton.mp h3))
        · exact Or.inr (by simp [h2])

/-- C9: For every topic string, `plan(topic, depth)` (`thinkPlanApproach`)
is a pure deterministic function returning exactly 2 aspects for basic, 5
for moderate and 11 for comprehensive, and the basic aspect list is a
prefix of the moderate list, which is a prefix of the comprehensive list. -/
theorem c9_plan_counts_and_prefix_nesting (topic : List Char) :
    (thinkPlanApproach topic Depth.basic).length = 2 ∧
    (thinkPlanApproach topic Depth.moderate).length = 5 ∧
    (thinkPlanApproach topic Depth.comprehensive).length = 11 ∧
    thinkPlanApproach topic Depth.basic <+: thinkPlanApproach topic Depth.moderate ∧
    thinkPlanApproach topic Depth.moderate <+: thinkPlanApproach topic Depth.comprehensive := by
  refine ⟨by simp [thinkPlanApproach], by simp [thinkPlanApproach],
    by simp [thinkPlanApproach], ?_, ?_⟩
  · exact ⟨[topic ++ strChars " use cases applications",
      topic ++ strChars " benefits advantages",
      topic ++ strChars " challenges limitations problems"], by simp [thinkPlanApproach]⟩
  · exact ⟨[topic ++ strChars " history evolution development",
      topic ++ strChars " comparison alternatives vs",
      topic ++ strChars " implementation technical details",
      topic ++ strChars " future trends predictions",
      topic ++ strChars " research papers academic",
      topic ++ strChars " case studies examples real world"], by simp [thinkPlanApproach]⟩

/-- The coverage-score formula exactly as worded by the specification:
50 × (coveredAspects / totalPlannedAspects), plus 5 per primary-tier source
capped at 25, plus 3 per authoritative-tier source capped at 15, plus 10 if
the merged content exceeds 100,000 characters or else 5 if it exceeds
50,000; the specification then asks for this value rounded and clamped. -/
def coverageScoreSpecFormula (s : Session) : ℚ :=
  let coveredAspects : Nat := s.memory.aspectsCovered.length
  let totalAspects : Nat := (thinkPlanApproach s.topic s.depth).length
  let primarySources : Nat :=
    (s.sources.filter fun src => decide (src.qualityTier = Tier.primary)).length
  let authoritativeSources : Nat :=
    (s.sources.filter fun src => decide (src.qualityTier = Tier.authoritative)).length
  let totalContent : Nat := (s.sources.map (fun src => src.contentLength)).sum
  50 * ((coveredAspects : ℚ) / (totalAspects : ℚ)) +
    min (5 * (primarySources : ℚ)) 25 + min (3 * (authoritativeSources : ℚ)) 15 +
    (if totalContent > 100000 then 10 else if totalContent > 50000 then 5 else 0)

/-- C2: For every session state, the coverage score equals the
specification's formula, rounded and clamped, and is always an integer in
[0, 100] for any combination of covered aspects, source tiers, and content
volume. -/
theorem c2_coverage_score_formula_and_bounds (s : Session) :
    calculateCoverageScore s = min (jsRound (coverageScoreSpecFormula s)) 100 ∧
    0 ≤ calculateCoverageScore s ∧ calculateCoverageScore s ≤ 100 := by
  have hq : (0 : ℚ) ≤ coverageScoreSpecFormula s := by
    unfold coverageScoreSpecFormula
    have h1 : (0 : ℚ) ≤ 50 * ((s.memory.aspectsCovered.length : ℚ) /
        ((thinkPlanApproach s.topic s.depth).length : ℚ)) := by positivity
    have h2 : (0 : ℚ) ≤ min (5 * (((s.sources.filter fun src =>
        decide (src.qualityTier = Tier.primary)).length : Nat) : ℚ)) 25 :=
      le_min (by positivity) (by norm_num)
    have h3 : (0 : ℚ) ≤ min (3 * (((s.sources.filter fun src =>
        decide (src.qualityTier = Tier.authoritative)).length : Nat) : ℚ)) 15 :=
      le_min (by positivity) (by norm_num)
    have h4 : (0 : ℚ) ≤ (if ((s.sources.map (fun src => src.contentLength)).sum : Nat) > 100000
        then (10 : ℚ) else if ((s.sources.map (fun src => src.contentLength)).sum : Nat) > 50000
        then 5 else 0) := by split_ifs <;> norm_num
    exact add_nonneg (add_nonneg (add_nonneg h1 h2) h3) h4
  have heq : calculateCoverageScore s = min (jsRound (coverageScoreSpecFormula s)) 100 := by
    unfold calculateCoverageScore coverageScoreSpecFormula
    ring_nf
  refine ⟨heq, ?_, ?_⟩
  · rw [heq]
    have : (0 : Int) ≤ jsRound (coverageScoreSpecFormula s) := by
      unfold jsRound
      have : (0 : ℚ) ≤ coverageScoreSpecFormula s + 1/2 := by linarith
      exact Int.le_floor.mpr (by exact_mod_cast this)
    exact le_min this (by norm_num)
  · rw [heq]; exact min_le_right _ _

theorem foldl_mergeSubagent_proj (l : List Subagent) : ∀ s : Session,
    (l.foldl mergeSubagent s).depth = s.depth ∧
    (l.foldl mergeSubagent s).iteration = s.iteration ∧
    (l.foldl mergeSubagent s).maxIterations = s.maxIterations ∧
    (l.foldl mergeSubagent s).topic = s.topic ∧
    (l.foldl mergeSubagent s).subagents = s.subagents ∧
    (l.foldl mergeSubagent s).status = s.status ∧
    (l.foldl mergeSubagent s).memory.iterationHistory = s.memory.iterationHistory := by
  induction l with
  | nil => intro s; exact ⟨rfl, rfl, rfl, rfl, rfl, rfl, rfl⟩
  | cons sa l ih =>
      intro s
      have h := ih (mergeSubagent s sa)
      simpa [mergeSubagent] using h

theorem mergeStep_depth (s : Session) : (mergeStep s).depth = s.depth :=
  (foldl_mergeSubagent_proj s.subagents s).1

theorem mergeStep_iteration (s : Session) : (mergeStep s).iteration = s.iteration :=
  (foldl_mergeSubagent_proj s.subagents s).2.1

theorem mergeStep_maxIterations (s : Session) :
    (mergeStep s).maxIterations = s.maxIterations :=
  (foldl_mergeSubagent_proj s.subagents s).2.2.1

theorem mergeStep_topic (s : Session) : (mergeStep s).topic = s.topic :=
  (foldl_mergeSubagent_proj s.subagents s).2.2.2.1

theorem mergeStep_subagents (s : Session) : (mergeStep s).subagents = s.subagents :=
  (foldl_mergeSubagent_proj s.subagents s).2.2.2.2.1

theorem mergeStep_history (s : Session) :
    (mergeStep s).memory.iterationHistory = s.memory.iterationHistory :=
  (foldl_mergeSubagent_proj s.subagents s).2.2.2.2.2.2

/-- C3: For every session, the evaluate step's decision follows the exact
priority order coverage-and-sources exit, then last-iteration exit, then
empty-gap-list exit, otherwise continue — and no other combination of
conditions produces an exit.  The condition values are those computed on the
merged session state, exactly as in `thinkSynthesizeAndEvaluate`. -/
theorem c3_stopping_rule_priority (s : Session) :
    ((thinkSynthesizeAndEvaluate s).2.decision = Decision.exit ↔
      ((calculateCoverageScore (mergeStep s) ≥ coverageThreshold s.depth ∧
        (mergeStep s).sources.length ≥
          minSourcesPerAspect s.depth * (aspectsResearchedOf s).length) ∨
      s.iteration ≥ s.maxIterations - 1 ∨
      identifyGaps (mergeStep s) = [])) ∧
    (thinkSynthesizeAndEvaluate s).2.reasoning =
      (if calculateCoverageScore (mergeStep s) ≥ coverageThreshold s.depth ∧
          (mergeStep s).sources.length ≥
            minSourcesPerAspect s.depth * (aspectsResearchedOf s).length
       then thresholdReasoning (calculateCoverageScore (mergeStep s))
         (coverageThreshold s.depth) (mergeStep s).sources.length
       else if s.iteration ≥ s.maxIterations - 1
       then maxIterationsReasoning s.maxIterations (calculateCoverageScore (mergeStep s))
       else if identifyGaps (mergeStep s) = []
       then noGapsReasoning (calculateCoverageScore (mergeStep s))
       else continueReasoning (calculateCoverageScore (mergeStep s))
         (coverageThreshold s.depth) (identifyGaps (mergeStep s))) := by
  unfold thinkSynthesizeAndEvaluate
  simp only [mergeStep_depth, mergeStep_maxIterations]
  by_cases h1 : calculateCoverageScore (mergeStep s) ≥ coverageThreshold s.depth ∧
      (mergeStep s).sources.length ≥
        minSourcesPerAspect s.depth * (aspectsResearchedOf s).length
  · simp [h1]
  · by_cases h2 : s.iteration ≥ s.maxIterations - 1
    · simp [h1, h2]
    · by_cases h3 : identifyGaps (mergeStep s) = []
      · simp [h1, h2, h3]
      · simp [h1, h2, h3]

/-- A concrete quality source used for counterexamples and witnesses. -/
def sampleSourceA : Source :=
  { title := strChars "Example Domain", url := strChars "https://example.com/",
    snippet := [], content := strChars "c", qualityScore := 5,
    qualityTier := Tier.general, domain := strChars "example.com",
    contentLength := 1, fetchedAt := 0, aspect := none, citationId := none }

/-- A second concrete source with the same URL as `sampleSourceA`. -/
def sampleSourceB : Source :=
  { title := strChars "Example Again", url := strChars "https://example.com/",
    snippet := [], content := strChars "d", qualityScore := 5,
    qualityTier := Tier.general, domain := strChars "example.com",
    contentLength := 1, fetchedAt := 1, aspect := none, citationId := none }

/-- C4 counterexample: the `add_source` tool pushes without any URL check,
so a session that already holds a source for `https://example.com/` ends up
with two sources for that URL — the claimed invariant fails for the
`add_source` operation. -/
theorem c4_counterexample :
    ((addSource { createSession (strChars "ai") Depth.basic with
        sources := [sampleSourceA] } sampleSourceB).sources.filter
      (fun src => decide (src.url = strChars "https://example.com/"))).length = 2 ∧
    (addSource { createSession (strChars "ai") Depth.basic with
        sources := [sampleSourceA] } sampleSourceB).sources =
      [sampleSourceA, sampleSourceB] := by
  constructor <;> rfl

/-- C4 (amended): the URL-deduplicating merge used both by the orchestrator
batch merge in `thinkSynthesizeAndEvaluate` and by the manual `run_subagent`
merge keeps the existing collection as an unchanged prefix, preserves the
at-most-one-source-per-URL invariant, and discards an arriving source whose
URL is already present (first write wins); `add_source`, by contrast,
appends unconditionally (see the counterexample). -/
theorem c4_merge_dedup_first_write_wins (ex inc : List Source) :
    ex <+: mergeSourceList ex inc ∧
    ((ex.map (fun src => src.url)).Nodup →
      ((mergeSourceList ex inc).map (fun src => src.url)).Nodup) ∧
    (∀ src, src.url ∈ ex.map (fun s => s.url) → mergeSourceList ex [src] = ex) := by
  refine ⟨isPrefix_insertAllBy _ _ _, nodup_map_key_insertAllBy _ _ _, ?_⟩
  intro src h
  refine insertAllBy_eq_self _ _ _ ?_
  intro x hx
  rw [List.mem_singleton] at hx
  exact hx ▸ h

/-- Witness for the C4 theorem at a concrete input with a duplicate URL. -/
theorem c4_merge_dedup_first_write_wins_witness :
    ((mergeSourceList [sampleSourceA] [sampleSourceB]).map (fun src => src.url)).Nodup ∧
    mergeSourceList [sampleSourceA] [sampleSourceB] = [sampleSourceA] :=
  ⟨(c4_merge_dedup_first_write_wins [sampleSourceA] [sampleSourceB]).2.1 (by decide),
   (c4_merge_dedup_first_write_wins [sampleSourceA] []).2.2 sampleSourceB (by decide)⟩

theorem map_identity {α : Type} (l : List α) : (l.map fun x => x) = l := by simp

theorem mem_addCovered_iff (c : List (List Char)) (a b : List Char) :
    b ∈ addCovered c a ↔ b ∈ c ∨ b = a := by
  have h := mem_map_key_insertAllBy (fun x => x) [a] b c
  rw [map_identity, map_identity] at h
  unfold addCovered
  simpa using h

theorem mergeSubagent_url_mono (s : Session) (sa : Subagent) (u : List Char)
    (h : u ∈ s.sources.map (fun src => src.url)) :
    u ∈ (mergeSubagent s sa).sources.map (fun src => src.url) := by
  simp only [mergeSubagent, mergeSourceList]
  exact (mem_map_key_insertAllBy _ _ _ _).mpr (Or.inl h)

theorem mergeSubagent_covered_mono (s : Session) (sa : Subagent) (a : List Char)
    (h : a ∈ s.memory.aspectsCovered) :
    a ∈ (mergeSubagent s sa).memory.aspectsCovered := by
  simp only [mergeSubagent]
  exact (mem_addCovered_iff _ _ _).mpr (Or.inl h)

theorem foldl_mergeSubagent_url_mono (l : List Subagent) : ∀ (s : Session) (u : List Char),
    u ∈ s.sources.map (fun src => src.url) →
    u ∈ (l.foldl mergeSubagent s).sources.map (fun src => src.url) := by
  induction l with
  | nil => intro s u h; exact h
  | cons sa l ih =>
      intro s u h
      exact ih (mergeSubagent s sa) u (mergeSubagent_url_mono s sa u h)

theorem foldl_mergeSubagent_covered_mono (l : List Subagent) :
    ∀ (s : Session) (a : List Char), a ∈ s.memory.aspectsCovered →
    a ∈ (l.foldl mergeSubagent s).memory.aspectsCovered := by
  induction l with
  | nil => intro s a h; exact h
  | cons sa l ih =>
      intro s a h
      exact ih (mergeSubagent s sa) a (mergeSubagent_covered_mono s sa a h)

theorem foldl_mergeSubagent_lands (l : List Subagent) : ∀ (s : Session), ∀ sa ∈ l,
    (∀ src ∈ sa.sources,
      src.url ∈ (l.foldl mergeSubagent s).sources.map (fun x => x.url)) ∧
    sa.aspect ∈ (l.foldl mergeSubagent s).memory.aspectsCovered := by
  induction l with
  | nil => intro s sa h; exact absurd h (List.not_mem_nil sa)
  | cons sb l ih =>
      intro s sa h
      rcases List.mem_cons.mp h with h | h
      · subst h
        constructor
        · intro src hsrc
          refine foldl_mergeSubagent_url_mono l (mergeSubagent s sa) src.url ?_
          simp only [mergeSubagent, mergeSourceList]
          exact mem_key_insertAllBy_of_mem _ _ _ src hsrc
        · refine foldl_mergeSubagent_covered_mono l (mergeSubagent s sa) sa.aspect ?_
          simp only [mergeSubagent]
          exact (mem_addCovered_iff _ _ _).mpr (Or.inr rfl)
      · exact ih (mergeSubagent s sb) sa h

theorem foldl_mergeSubagent_noop (l : List Subagent) : ∀ (s : Session),
    (∀ sa ∈ l, (∀ src ∈ sa.sources, src.url ∈ s.sources.map (fun x => x.url)) ∧
      sa.aspect ∈ s.memory.aspectsCovered) →
    (l.foldl mergeSubagent s).sources = s.sources ∧
    (l.foldl mergeSubagent s).memory.aspectsCovered = s.memory.aspectsCovered := by
  induction l with
  | nil => intro s _; exact ⟨rfl, rfl⟩
  | cons sa l ih =>
      intro s h
      have hsa := h sa (by simp)
      have hsrc : mergeSourceList s.sources sa.sources = s.sources :=
        insertAllBy_eq_self _ _ _ hsa.1
      have hcov : addCovered s.memory.aspectsCovered sa.aspect = s.memory.aspectsCovered := by
        refine insertAllBy_eq_self _ _ _ ?_
        intro x hx
        rw [List.mem_singleton] at hx
        rw [map_identity]
        exact hx ▸ hsa.2
      have hstep : (mergeSubagent s sa).sources = s.sources ∧
          (mergeSubagent s sa).memory.aspectsCovered = s.memory.aspectsCovered := by
        constructor
        · simpa [mergeSubagent] using hsrc
        · simpa [mergeSubagent] using hcov
      have hrest := ih (mergeSubagent s sa) (by
        intro sb hsb
        have := h sb (by simp [hsb])
        exact ⟨fun src hsrc2 => by rw [hstep.1]; exact this.1 src hsrc2,
          by rw [hstep.2]; exact this.2⟩)
      exact ⟨by rw [List.foldl_cons] at *; rw [hrest.1, hstep.1],
        by rw [List.foldl_cons] at *; rw [hrest.2, hstep.2]⟩

theorem calculateCoverageScore_congr (s₁ s₂ : Session)
    (ht : s₁.topic = s₂.topic) (hd : s₁.depth = s₂.depth)
    (hc : s₁.memory.aspectsCovered = s₂.memory.aspectsCovered)
    (hs : s₁.sources = s₂.sources) :
    calculateCoverageScore s₁ = calculateCoverageScore s₂ := by
  unfold calculateCoverageScore
  rw [ht, hd, hc, hs]

theorem identifyGaps_congr (s₁ s₂ : Session)
    (ht : s₁.topic = s₂.topic) (hd : s₁.depth = s₂.depth)
    (hc : s₁.memory.aspectsCovered = s₂.memory.aspectsCovered)
    (hs : s₁.sources = s₂.sources) :
    identifyGaps s₁ = identifyGaps s₂ := by
  unfold identifyGaps gapsForAspect
  simp only [ht, hd, hc, hs]

/-- The IterationResult produced by `thinkSynthesizeAndEvaluate`, written
out over the merged session state. -/
def evalResultOf (s : Session) : IterationResult :=
  let m := mergeStep s
  let cov := calculateCoverageScore m
  let gaps := identifyGaps m
  let minSources := minSourcesPerAspect m.depth * (aspectsResearchedOf s).length
  let dr : Decision × List Char :=
    if cov ≥ coverageThreshold m.depth ∧ m.sources.length ≥ minSources then
      (Decision.exit, thresholdReasoning cov (coverageThreshold m.depth) m.sources.length)
    else if s.iteration ≥ m.maxIterations - 1 then
      (Decision.exit, maxIterationsReasoning m.maxIterations cov)
    else if gaps = [] then
      (Decision.exit, noGapsReasoning cov)
    else
      (Decision.cont, continueReasoning cov (coverageThreshold m.depth) gaps)
  { iteration := s.iteration
    aspectsResearched := aspectsResearchedOf s
    sourcesFound := m.sources.length
    coverageScore := cov
    gaps := gaps
    decision := dr.1
    reasoning := dr.2 }

theorem eval_snd_eq (s : Session) :
    (thinkSynthesizeAndEvaluate s).2 = evalResultOf s := rfl

theorem eval_fst_sources (s : Session) :
    (thinkSynthesizeAndEvaluate s).1.sources = (mergeStep s).sources := rfl

theorem eval_fst_covered (s : Session) :
    (thinkSynthesizeAndEvaluate s).1.memory.aspectsCovered =
      (mergeStep s).memory.aspectsCovered := rfl

theorem eval_fst_subagents (s : Session) :
    (thinkSynthesizeAndEvaluate s).1.subagents = s.subagents := mergeStep_subagents s

theorem eval_fst_iteration (s : Session) :
    (thinkSynthesizeAndEvaluate s).1.iteration = s.iteration := mergeStep_iteration s

theorem eval_fst_maxIterations (s : Session) :
    (thinkSynthesizeAndEvaluate s).1.maxIterations = s.maxIterations :=
  mergeStep_maxIterations s

theorem eval_fst_depth (s : Session) :
    (thinkSynthesizeAndEvaluate s).1.depth = s.depth := mergeStep_depth s

theorem eval_fst_topic (s : Session) :
    (thinkSynthesizeAndEvaluate s).1.topic = s.topic := mergeStep_topic s

theorem eval_fst_history (s : Session) :
    (thinkSynthesizeAndEvaluate s).1.memory.iterationHistory =
      s.memory.iterationHistory ++ [(thinkSynthesizeAndEvaluate s).2] := by
  have h : (thinkSynthesizeAndEvaluate s).1.memory.iterationHistory =
      (mergeStep s).memory.iterationHistory ++ [(thinkSynthesizeAndEvaluate s).2] := rfl
  rw [h, mergeStep_history]

theorem mergeStep_of_eval_fst (s : Session) :
    (mergeStep (thinkSynthesizeAndEvaluate s).1).sources =
      (thinkSynthesizeAndEvaluate s).1.sources ∧
    (mergeStep (thinkSynthesizeAndEvaluate s).1).memory.aspectsCovered =
      (thinkSynthesizeAndEvaluate s).1.memory.aspectsCovered := by
  refine foldl_mergeSubagent_noop _ _ ?_
  intro sa hsa
  rw [eval_fst_subagents] at hsa
  have hland := foldl_mergeSubagent_lands s.subagents s sa hsa
  rw [eval_fst_sources, eval_fst_covered]
  exact hland

/-- C5: Running the evaluate step twice in succession on a session that is
unchanged in between produces two IterationResults with the same coverage
score and the same continue/exit decision (in fact the two records are
identical), appended one after the other to the iteration history. -/
theorem c5_evaluate_idempotent (s : Session) :
    (thinkSynthesizeAndEvaluate (thinkSynthesizeAndEvaluate s).1).2 =
      (thinkSynthesizeAndEvaluate s).2 ∧
    (thinkSynthesizeAndEvaluate (thinkSynthesizeAndEvaluate s).1).1.memory.iterationHistory =
      s.memory.iterationHistory ++
        [(thinkSynthesizeAndEvaluate s).2, (thinkSynthesizeAndEvaluate s).2] := by
  set s1 := (thinkSynthesizeAndEvaluate s).1 with hs1
  have hm2s : (mergeStep s1).sources = (mergeStep s).sources := by
    rw [(mergeStep_of_eval_fst s).1, eval_fst_sources]
  have hm2c : (mergeStep s1).memory.aspectsCovered =
      (mergeStep s).memory.aspectsCovered := by
    rw [(mergeStep_of_eval_fst s).2, eval_fst_covered]
  have hm2t : (mergeStep s1).topic = (mergeStep s).topic := by
    rw [mergeStep_topic, mergeStep_topic, eval_fst_topic]
  have hm2d : (mergeStep s1).depth = (mergeStep s).depth := by
    rw [mergeStep_depth, mergeStep_depth, eval_fst_depth]
  have hm2M : (mergeStep s1).maxIterations = (mergeStep s).maxIterations := by
    rw [mergeStep_maxIterations, mergeStep_maxIterations, eval_fst_maxIterations]
  have hcov : calculateCoverageScore (mergeStep s1) = calculateCoverageScore (mergeStep s) :=
    calculateCoverageScore_congr _ _ hm2t hm2d hm2c hm2s
  have hgaps : identifyGaps (mergeStep s1) = identifyGaps (mergeStep s) :=
    identifyGaps_congr _ _ hm2t hm2d hm2c hm2s
  have hasp : aspectsResearchedOf s1 = aspectsResearchedOf s := by
    unfold aspectsResearchedOf
    rw [hs1, eval_fst_subagents]
  have hiter : s1.iteration = s.iteration := eval_fst_iteration s
  have hr : (thinkSynthesizeAndEvaluate s1).2 = (thinkSynthesizeAndEvaluate s).2 := by
    rw [eval_snd_eq, eval_snd_eq]
    simp only [evalResultOf]
    rw [hm2s, hm2d, hm2M, hcov, hgaps, hasp, hiter]
  refine ⟨hr, ?_⟩
  rw [eval_fst_history s1, eval_fst_history s, hr]
  simp

theorem insertDesc_perm (x : Source) (l : List Source) :
    List.Perm (insertDesc x l) (x :: l) := by
  induction l with
  | nil => exact List.Perm.refl _
  | cons y l ih =>
      unfold insertDesc
      by_cases h : x.qualityScore < y.qualityScore
      · rw [if_pos h]
        exact (ih.cons y).trans (List.Perm.swap x y l)
      · rw [if_neg h]

theorem insertDesc_sorted (x : Source) (l : List Source)
    (h : l.Pairwise fun a b => b.qualityScore ≤ a.qualityScore) :
    (insertDesc x l).Pairwise fun a b => b.qualityScore ≤ a.qualityScore := by
  induction l with
  | nil => simp [insertDesc]
  | cons y l ih =>
      rw [List.pairwise_cons] at h
      unfold insertDesc
      by_cases hlt : x.qualityScore < y.qualityScore
      · rw [if_pos hlt]
        rw [List.pairwise_cons]
        refine ⟨?_, ih h.2⟩
        intro z hz
        rcases List.mem_cons.mp ((insertDesc_perm x l).mem_iff.mp hz) with hz | hz
        · exact hz ▸ Nat.le_of_lt hlt
        · exact h.1 z hz
      · rw [if_neg hlt]
        rw [List.pairwise_cons]
        refine ⟨?_, List.pairwise_cons.mpr h⟩
        intro z hz
        rcases List.mem_cons.mp hz with hz | hz
        · exact hz ▸ Nat.le_of_not_lt hlt
        · exact le_trans (h.1 z hz) (Nat.le_of_not_lt hlt)

theorem insertDesc_filter (q : Nat) (x : Source) (l : List Source) :
    (insertDesc x l).filter (fun src => decide (src.qualityScore = q)) =
      if x.qualityScore = q then
        x :: l.filter (fun src => decide (src.qualityScore = q))
      else l.filter (fun src => decide (src.qualityScore = q)) := by
  induction l with
  | nil =>
      unfold insertDesc
      by_cases h : x.qualityScore = q <;> simp [h]
  | cons y l ih =>
      unfold insertDesc
      by_cases hlt : x.qualityScore < y.qualityScore
      · rw [if_pos hlt]
        by_cases hx : x.qualityScore = q
        · have hy : ¬ y.qualityScore = q := by omega
          simp [List.filter_cons, hx, hy, ih]
        · by_cases hy : y.qualityScore = q <;> simp [List.filter_cons, hx, hy, ih]
      · rw [if_neg hlt]
        by_cases hx : x.qualityScore = q <;> simp [List.filter_cons, hx]

theorem sortByScoreDesc_perm (l : List Source) : List.Perm (sortByScoreDesc l) l := by
  induction l with
  | nil => exact List.Perm.refl _
  | cons x l ih =>
      unfold sortByScoreDesc
      exact (insertDesc_perm x (sortByScoreDesc l)).trans (ih.cons x)

theorem sortByScoreDesc_sorted (l : List Source) :
    (sortByScoreDesc l).Pairwise fun a b => b.qualityScore ≤ a.qualityScore := by
  induction l with
  | nil => simp [sortByScoreDesc]
  | cons x l ih => exact insertDesc_sorted x _ ih

theorem sortByScoreDesc_filter (q : Nat) (l : List Source) :
    (sortByScoreDesc l).filter (fun src => decide (src.qualityScore = q)) =
      l.filter (fun src => decide (src.qualityScore = q)) := by
  induction l with
  | nil => rfl
  | cons x l ih =>
      unfold sortByScoreDesc
      rw [insertDesc_filter, List.filter_cons]
      by_cases hx : x.qualityScore = q <;> simp [hx, ih]

/-- A source with its citation id cleared, used to compare source lists up
to citation-id assignment. -/
def eraseCitation (src : Source) : Source := { src with citationId := none }

theorem assignIds_length (l : List Source) : ∀ n, (assignIds n l).length = l.length := by
  induction l with
  | nil => intro n; rfl
  | cons x l ih => intro n; simp [assignIds, ih]

theorem assignIds_map_citationId (l : List Source) :
    ∀ n, (assignIds n l).map (fun src => src.citationId) =
      (List.range' n l.length).map some := by
  induction l with
  | nil => intro n; rfl
  | cons x l ih =>
      intro n
      simp only [assignIds, List.map_cons, List.length_cons, List.range'_succ, ih]

theorem assignIds_map_eraseCitation (l : List Source) :
    ∀ n, (assignIds n l).map eraseCitation = l.map eraseCitation := by
  induction l with
  | nil => intro n; rfl
  | cons x l ih =>
      intro n
      simp only [assignIds, List.map_cons, ih]
      rfl

theorem assignIds_map_score (l : List Source) :
    ∀ n, (assignIds n l).map (fun src => src.qualityScore) =
      l.map (fun src => src.qualityScore) := by
  induction l with
  | nil => intro n; rfl
  | cons x l ih => intro n; simp [assignIds, ih]

theorem assignIds_mem_id_pos (l : List Source) :
    ∀ n, 0 < n → ∀ src ∈ assignIds n l, ∃ id, src.citationId = some id ∧ 0 < id := by
  induction l with
  | nil => intro n _ src h; exact absurd h (List.not_mem_nil src)
  | cons x l ih =>
      intro n hn src h
      rcases List.mem_cons.mp h with h | h
      · exact ⟨n, by rw [h], hn⟩
      · exact ih (n + 1) (Nat.succ_pos n) src h

/-- C6: After citation processing the assigned citation ids form exactly
the contiguous range 1..N where N is the number of sources in the merged
collection, ids are assigned in order of non-increasing quality score, and
sources of equal quality score keep their original relative order (the
filter to any fixed score class is unchanged, up to the id assignment). -/
theorem c6_citation_ids_contiguous_sorted_stable (sources : List Source) :
    (citationAgentProcess sources).length = sources.length ∧
    (citationAgentProcess sources).map (fun src => src.citationId) =
      (List.range' 1 sources.length).map some ∧
    (citationAgentProcess sources).Pairwise
      (fun a b => b.qualityScore ≤ a.qualityScore) ∧
    ∀ q : Nat, ((citationAgentProcess sources).filter
        (fun src => decide (src.qualityScore = q))).map eraseCitation =
      (sources.filter (fun src => decide (src.qualityScore = q))).map eraseCitation := by
  have hlen : (sortByScoreDesc sources).length = sources.length :=
    (sortByScoreDesc_perm sources).length_eq
  refine ⟨?_, ?_, ?_, ?_⟩
  · rw [citationAgentProcess, assignIds_length, hlen]
  · rw [citationAgentProcess, assignIds_map_citationId, hlen]
  · have hmap := assignIds_map_score (sortByScoreDesc sources) 1
    have hsorted := sortByScoreDesc_sorted sources
    have h1 : ((sortByScoreDesc sources).map (fun src => src.qualityScore)).Pairwise
        (fun a b => b ≤ a) := (List.pairwise_map).mpr hsorted
    rw [← hmap] at h1
    exact (List.pairwise_map).mp h1
  · intro q
    have hcomp : (fun src => decide (src.qualityScore = q)) ∘ eraseCitation =
        (fun src => decide (src.qualityScore = q)) := rfl
    calc ((citationAgentProcess sources).filter
          (fun src => decide (src.qualityScore = q))).map eraseCitation
        = ((citationAgentProcess sources).map eraseCitation).filter
            (fun src => decide (src.qualityScore = q)) := by
          rw [List.filter_map, hcomp]
      _ = ((sortByScoreDesc sources).map eraseCitation).filter
            (fun src => decide (src.qualityScore = q)) := by
          rw [citationAgentProcess, assignIds_map_eraseCitation]
      _ = ((sortByScoreDesc sources).filter
            (fun src => decide (src.qualityScore = q))).map eraseCitation := by
          rw [List.filter_map, hcomp]
      _ = (sources.filter (fun src => decide (src.qualityScore = q))).map eraseCitation := by
          rw [sortByScoreDesc_filter]

/-- The condition under which the inner loop of `insertCitations` inserts a
marker for a given source into a given sentence: the citation id is truthy,
the sentence matches the source's domain or 30-character title head,
and the marker is not already present in the sentence. -/
def insertPred (sentence : List Char) (src : Source) : Bool :=
  match src.citationId with
  | some id =>
      citationIdTruthy (some id) && sentenceMatches src sentence &&
        !(containsSub (markerChars id) sentence)
  | none => false

theorem processSentence_skip (sentence : List Char) (src : Source)
    (rest : List Source) (hp : insertPred sentence src = false) :
    processSentence (src :: rest) sentence = processSentence rest sentence := by
  cases hcid : src.citationId with
  | none => simp only [processSentence, hcid]
  | some id =>
      unfold insertPred at hp
      rw [hcid] at hp
      simp only [processSentence, hcid]
      by_cases h1 : citationIdTruthy (some id) = true ∧ sentenceMatches src sentence = true
      · have hmark : containsSub (markerChars id) sentence = true := by
          rcases Bool.and_eq_false_iff.mp hp with h | h
          · rcases Bool.and_eq_false_iff.mp h with h | h
            · exact absurd h1.1 (by simp [h])
            · exact absurd h1.2 (by simp [h])
          · simpa using h
        rw [if_pos h1, if_pos hmark]
      · rw [if_neg h1]

theorem processSentence_insert (sentence : List Char) (src : Source)
    (rest : List Source) (id : Nat) (hcid : src.citationId = some id)
    (hp : insertPred sentence src = true) :
    processSentence (src :: rest) sentence = appendMarkerBeforePunct id sentence := by
  unfold insertPred at hp
  rw [hcid] at hp
  simp only [Bool.and_eq_true, Bool.not_eq_eq_eq_not, Bool.not_true] at hp
  simp only [processSentence, hcid]
  rw [if_pos ⟨hp.1.1, hp.1.2⟩, if_neg (by simp [hp.2])]

/-- C7 (amended): for every sentence and source list (as used per sentence
by `insertCitations`): if no source matches with its marker absent, the
sentence is unchanged; otherwise the first such source (in citation order)
wins, no further sources are checked, and exactly one marker ` [id]` is
inserted immediately before the sentence's trailing punctuation — while a
matching sentence with no trailing `.`/`!`/`?` is left unchanged.  In
particular a sentence matching no source is unchanged and no sentence ever
receives more than one inserted marker. -/
theorem c7_sentence_citation_first_match (sources : List Source) (sentence : List Char) :
    ((∀ src ∈ sources, sentenceMatches src sentence = false) →
      processSentence sources sentence = sentence) ∧
    (sources.find? (insertPred sentence) = none →
      processSentence sources sentence = sentence) ∧
    (∀ src id, sources.find? (insertPred sentence) = some src →
      src.citationId = some id →
      processSentence sources sentence = appendMarkerBeforePunct id sentence ∧
      (∀ last, sentence.getLast? = some last → isPunctChar last = true →
        processSentence sources sentence =
          sentence.dropLast ++ strChars " " ++ markerChars id ++ [last]) ∧
      ((∀ last, sentence.getLast? = some last → isPunctChar last = false) →
        processSentence sources sentence = sentence)) := by
  have hnone : sources.find? (insertPred sentence) = none →
      processSentence sources sentence = sentence := by
    induction sources with
    | nil => intro _; rfl
    | cons src rest ih =>
        intro h
        by_cases hp : insertPred sentence src = true
        · rw [List.find?_cons_of_pos _ hp] at h
          exact absurd h (by simp)
        · have hp2 : insertPred sentence src = false := by simpa using hp
          rw [List.find?_cons_of_neg _ (by simp [hp2])] at h
          rw [processSentence_skip sentence src rest hp2]
          exact ih h
  refine ⟨?_, hnone, ?_⟩
  · intro h
    refine hnone (List.find?_eq_none.mpr ?_)
    intro src hsrc
    unfold insertPred
    cases hcid : src.citationId with
    | none => simp
    | some id => simp [h src hsrc]
  · intro src id hfind hcid
    clear hnone
    have hmain : processSentence sources sentence = appendMarkerBeforePunct id sentence := by
      induction sources with
      | nil => simp at hfind
      | cons src' rest ih =>
          by_cases hp : insertPred sentence src' = true
          · rw [List.find?_cons_of_pos _ hp] at hfind
            have : src' = src := by simpa using hfind
            subst this
            exact processSentence_insert sentence src' rest id hcid hp
          · have hp2 : insertPred sentence src' = false := by simpa using hp
            rw [List.find?_cons_of_neg _ (by simp [hp2])] at hfind
            rw [processSentence_skip sentence src' rest hp2]
            exact ih hfind
    refine ⟨hmain, ?_, ?_⟩
    · intro last hlast hpunct
      rw [hmain]
      simp only [appendMarkerBeforePunct, hlast]
      rw [if_pos hpunct]
    · intro hnopunct
      rw [hmain]
      cases hlast : sentence.getLast? with
      | none => simp only [appendMarkerBeforePunct, hlast]
      | some last =>
          simp only [appendMarkerBeforePunct, hlast]
          rw [if_neg (by simp [hnopunct last hlast])]

/-- A concrete source with citation id 1 whose domain appears in the
counterexample sentence. -/
def c7Source : Source :=
  { title := strChars "Example Domain page", url := strChars "https://example.com/",
    snippet := [], content := [], qualityScore := 5, qualityTier := Tier.general,
    domain := strChars "example.com", contentLength := 0, fetchedAt := 0,
    aspect := none, citationId := some 1 }

/-- C7 counterexample: the sentence `see example.com` matches `c7Source`
(domain contained, marker absent), yet — because the sentence has no
trailing punctuation — the regex replacement inserts nothing and the
sentence survives unchanged, with no marker appended, contradicting the
claim as stated. -/
theorem c7_counterexample :
    insertPred (strChars "see example.com") c7Source = true ∧
    processSentence [c7Source] (strChars "see example.com") =
      strChars "see example.com" ∧
    containsSub (markerChars 1) (strChars "see example.com") = false := by
  refine ⟨by decide, by decide, by decide⟩

/-- A concrete source with citation id 2 for the C7 witness. -/
def c7SourceW : Source :=
  { title := strChars "Example Domain page", url := strChars "https://example.com/w",
    snippet := [], content := [], qualityScore := 5, qualityTier := Tier.general,
    domain := strChars "example.com", contentLength := 0, fetchedAt := 0,
    aspect := none, citationId := some 2 }

/-- Witness for the C7 theorem: a punctuated matching sentence receives
exactly the marker ` [2]` before its trailing period. -/
theorem c7_sentence_citation_first_match_witness :
    processSentence [c7SourceW] (strChars "Visit example.com now.") =
      strChars "Visit example.com now [2]." := by
  have h := (c7_sentence_citation_first_match [c7SourceW]
    (strChars "Visit example.com now.")).2.2 c7SourceW 2 (by decide) (by decide)
  exact (h.2.1 '.' (by decide) (by decide)).trans (by decide)

/-- The gap-derived refinement queries appended by `generateAspectQueries`:
up to two, drawn from the gaps that contain the aspect's first word
(case-insensitively), each prefixed with the topic. -/
def gapQueriesFor (aspect : List Char) (s : Session) : List (List Char) :=
  ((s.memory.gaps.filter fun g =>
    containsSub (lowerChars ((splitSp aspect).headD [])) (lowerChars g)).take 2).map
    (fun g => s.topic ++ strChars " " ++ g)

/-- C8 (amended): for every aspect and session, the generated query list
starts with the aspect string verbatim; then, if prior findings for that
aspect exist in memory, it contains exactly the two refinement queries
`{aspect} detailed explanation` and `{aspect} expert analysis`, otherwise
exactly one broadening query formed from the topic plus the aspect's last
two words; and it ends with at most two gap-derived queries, taken only
from gaps that contain the aspect's first word (case-insensitively). -/
theorem c8_aspect_query_generation (aspect : List Char) (s : Session) :
    generateAspectQueries aspect s =
      aspect ::
        ((if 0 < (findingsGet s.memory.findings aspect).length then
            [aspect ++ strChars " detailed explanation",
             aspect ++ strChars " expert analysis"]
          else
            [s.topic ++ strChars " " ++
              joinWith (strChars " ")
                ((splitSp aspect).drop ((splitSp aspect).length - 2))]) ++
          gapQueriesFor aspect s) ∧
    (gapQueriesFor aspect s).length ≤ 2 ∧
    ∀ q ∈ gapQueriesFor aspect s, ∃ g ∈ s.memory.gaps,
      q = s.topic ++ strChars " " ++ g ∧
      containsSub (lowerChars ((splitSp aspect).headD [])) (lowerChars g) = true := by
  refine ⟨by simp [generateAspectQueries, gapQueriesFor], ?_, ?_⟩
  · unfold gapQueriesFor
    rw [List.length_map]
    exact le_trans (List.length_take_le 2 _) (le_refl 2)
  · intro q hq
    unfold gapQueriesFor at hq
    rcases List.mem_map.mp hq with ⟨g, hg, hq⟩
    have hg2 := List.take_subset 2 _ hg
    rcases List.mem_filter.mp hg2 with ⟨hgmem, hgpred⟩
    exact ⟨g, hgmem, hq.symm, hgpred⟩

/-- The session used in the C8 counterexample and witness: one recorded gap
`Missing coverage: alpha`. -/
def c8Session : Session :=
  { createSession (strChars "t") Depth.basic with
    memory := { (createSession (strChars "t") Depth.basic).memory with
      gaps := [strChars "Missing coverage: alpha"] } }

/-- C8 counterexample: for the aspect `alpha beta` the query list contains
the gap-derived query `t Missing coverage: alpha`, although the first word
of that gap (`Missing`) does not match the aspect's first word (`alpha`);
the gap is selected because it merely contains the aspect's first word. -/
theorem c8_counterexample :
    generateAspectQueries (strChars "alpha beta") c8Session =
      [strChars "alpha beta", strChars "t alpha beta",
       strChars "t Missing coverage: alpha"] ∧
    (splitSp (strChars "Missing coverage: alpha")).headD [] = strChars "Missing" ∧
    (splitSp (strChars "alpha beta")).headD [] = strChars "alpha" ∧
    (strChars "Missing" : List Char) ≠ strChars "alpha" := by
  refine ⟨by decide, by decide, by decide, by decide⟩

/-- Witness for the C8 theorem: the gap query generated for aspect
`alpha beta` really comes from a recorded gap containing the word `alpha`. -/
theorem c8_aspect_query_generation_witness :
    ∃ g ∈ c8Session.memory.gaps,
      strChars "t Missing coverage: alpha" = c8Session.topic ++ strChars " " ++ g ∧
      containsSub (lowerChars ((splitSp (strChars "alpha beta")).headD []))
        (lowerChars g) = true :=
  (c8_aspect_query_generation (strChars "alpha beta") c8Session).2.2
    (strChars "t Missing coverage: alpha") (by decide)

theorem citationAgentProcess_length (sources : List Source) :
    (citationAgentProcess sources).length = sources.length := by
  rw [citationAgentProcess, assignIds_length, (sortByScoreDesc_perm sources).length_eq]

/-- C10: After citation processing, the References section appended to the
report lists every source in the merged collection, each as
`[id] title. url (tier)` — not only the sources whose inline markers were
inserted into the body; the section is appended unconditionally, even when
no sentence matched any source. -/
theorem c10_references_lists_every_source (report : List Char) (sources : List Source) :
    insertCitations report (citationAgentProcess sources) =
      joinWith (strChars " ")
        ((splitSentences report).map (processSentence (citationAgentProcess sources))) ++
      (strChars "\n\n## References\n\n" ++
        ((citationAgentProcess sources).map refLine).flatten) ∧
    (citationAgentProcess sources).length = sources.length ∧
    (∀ src ∈ citationAgentProcess sources, ∃ id, src.citationId = some id ∧ 0 < id ∧
      refLine src = strChars "[" ++ natChars id ++ strChars "] " ++ src.title ++
        strChars ". " ++ src.url ++ strChars " (" ++ tierChars src.qualityTier ++
        strChars ")\n") := by
  refine ⟨rfl, citationAgentProcess_length sources, ?_⟩
  intro src hsrc
  rcases assignIds_mem_id_pos (sortByScoreDesc sources) 1 Nat.one_pos src hsrc
    with ⟨id, hid, hpos⟩
  refine ⟨id, hid, hpos, ?_⟩
  simp only [refLine, hid]
  rw [if_pos (by simp [citationIdTruthy]; omega)]

/-- Witness for the C10 theorem: processing the single-source collection
`[sampleSourceA]` yields citation id 1 and the full reference line. -/
theorem c10_references_lists_every_source_witness :
    ∃ id, ({ sampleSourceA with citationId := some 1 } : Source).citationId = some id ∧
      0 < id ∧
      refLine { sampleSourceA with citationId := some 1 } =
        strChars "[" ++ natChars id ++ strChars "] " ++ sampleSourceA.title ++
          strChars ". " ++ sampleSourceA.url ++ strChars " (" ++
          tierChars sampleSourceA.qualityTier ++ strChars ")\n" :=
  (c10_references_lists_every_source (strChars "r") [sampleSourceA]).2.2
    { sampleSourceA with citationId := some 1 } (by decide)

theorem parseGap_gapString (a : List Char) (ha : a ≠ [])
    (hterm : a.all (fun c => !isLineTerminator c) = true) : ∀ pre : List Char,
    (∀ c ∈ pre, ¬ c = ':') → parseGap (pre ++ ([':', ' '] ++ a)) = some a := by
  intro pre
  induction pre with
  | nil =>
      intro _
      simp only [List.nil_append, List.cons_append]
      rw [parseGap]
      rw [if_pos ⟨rfl, rfl, ha, hterm⟩]
  | cons c pre ih =>
      intro hpre
      cases pre with
      | nil =>
          simp only [List.cons_append, List.nil_append]
          rw [parseGap]
          rw [if_neg (by
            intro hcontra
            exact hpre c (by simp) hcontra.1)]
          exact ih (by intro x hx; exact absurd hx (List.not_mem_nil x))
      | cons d pre' =>
          have hstep : parseGap ((c :: d :: pre') ++ ([':', ' '] ++ a)) =
              parseGap ((d :: pre') ++ ([':', ' '] ++ a)) := by
            simp only [List.cons_append]
            rw [parseGap]
            rw [if_neg (by
              intro hcontra
              exact hpre c (by simp) hcontra.1)]
          rw [hstep]
          exact ih (by intro x hx; exact hpre x (by simp [hx]))

theorem parseGap_missing (a : List Char) (ha : a ≠ [])
    (hterm : a.all (fun c => !isLineTerminator c) = true) :
    parseGap (strChars "Missing coverage: " ++ a) = some a := by
  have h : strChars "Missing coverage: " ++ a =
      strChars "Missing coverage" ++ ([':', ' '] ++ a) := by
    rw [← List.append_assoc]
    congr 1
  rw [h]
  exact parseGap_gapString a ha hterm _ (by decide)

theorem parseGap_insufficient (a : List Char) (ha : a ≠ [])
    (hterm : a.all (fun c => !isLineTerminator c) = true) :
    parseGap (strChars "Insufficient sources for: " ++ a) = some a := by
  have h : strChars "Insufficient sources for: " ++ a =
      strChars "Insufficient sources for" ++ ([':', ' '] ++ a) := by
    rw [← List.append_assoc]
    congr 1
  rw [h]
  exact parseGap_gapString a ha hterm _ (by decide)

theorem parseGap_noPrimary (a : List Char) (ha : a ≠ [])
    (hterm : a.all (fun c => !isLineTerminator c) = true) :
    parseGap (strChars "No primary sources for: " ++ a) = some a := by
  have h : strChars "No primary sources for: " ++ a =
      strChars "No primary sources for" ++ ([':', ' '] ++ a) := by
    rw [← List.append_assoc]
    congr 1
  rw [h]
  exact parseGap_gapString a ha hterm _ (by decide)

theorem containsSub_append_right (n r : List Char) : containsSub n (n ++ r) = true := by
  simp only [containsSub, decide_eq_true_eq]
  exact ⟨[], r, by simp⟩

theorem containsSub_missing (a : List Char) :
    containsSub (strChars "Missing coverage") (strChars "Missing coverage: " ++ a) = true := by
  have h : strChars "Missing coverage: " ++ a =
      strChars "Missing coverage" ++ (strChars ": " ++ a) := by
    rw [← List.append_assoc]
    congr 1
  rw [h]
  exact containsSub_append_right _ _

theorem containsSub_insufficient (a : List Char) :
    containsSub (strChars "Insufficient")
      (strChars "Insufficient sources for: " ++ a) = true := by
  have h : strChars "Insufficient sources for: " ++ a =
      strChars "Insufficient" ++ (strChars " sources for: " ++ a) := by
    rw [← List.append_assoc]
    congr 1
  rw [h]
  exact containsSub_append_right _ _

theorem jsDedup_ne_nil (l : List (List Char)) (h : l ≠ []) : jsDedup l ≠ [] := by
  cases l with
  | nil => exact absurd rfl h
  | cons a rest =>
      rw [jsDedup]
      simp

theorem jsDedup_subset : ∀ (l : List (List Char)), ∀ x ∈ jsDedup l, x ∈ l
  | [] => by simp [jsDedup]
  | a :: rest => by
      intro x hx
      rw [jsDedup] at hx
      rcases List.mem_cons.mp hx with h | h
      · simp [h]
      · have h2 := jsDedup_subset (rest.filter fun b => decide (¬ b = a)) x h
        exact List.mem_cons.mpr (Or.inr (List.mem_of_mem_filter h2))
termination_by l => l.length
decreasing_by
  simp only [List.length_cons]
  exact Nat.lt_succ_of_le (List.length_filter_le _ _)

theorem plan_ne_nil (topic : List Char) (d : Depth) :
    thinkPlanApproach topic d ≠ [] := by
  cases d <;> simp [thinkPlanApproach]

theorem plan_length_bounds (topic : List Char) (d : Depth) :
    0 < (thinkPlanApproach topic d).length ∧ (thinkPlanApproach topic d).length ≤ 11 := by
  cases d <;> simp [thinkPlanApproach]

theorem plan_aspect_ne_nil (topic : List Char) (d : Depth) :
    ∀ a ∈ thinkPlanApproach topic d, a ≠ [] := by
  have h : ∀ (s : String), s.data ≠ [] → topic ++ strChars s ≠ [] := by
    intro s hs hc
    rcases List.append_eq_nil.mp hc with ⟨_, h2⟩
    exact hs h2
  cases d with
  | basic =>
      intro a ha
      simp only [thinkPlanApproach, List.mem_cons, List.not_mem_nil, or_false] at ha
      rcases ha with rfl | rfl <;> exact h _ (by decide)
  | moderate =>
      intro a ha
      simp only [thinkPlanApproach, List.cons_append, List.nil_append, List.mem_cons,
        List.not_mem_nil, or_false] at ha
      rcases ha with rfl | rfl | rfl | rfl | rfl <;> exact h _ (by decide)
  | comprehensive =>
      intro a ha
      simp only [thinkPlanApproach, List.cons_append, List.nil_append, List.mem_cons,
        List.not_mem_nil, or_false] at ha
      rcases ha with rfl | rfl | rfl | rfl | rfl | rfl | rfl | rfl | rfl | rfl | rfl <;>
        exact h _ (by decide)

theorem plan_aspect_no_terminator (topic : List Char) (d : Depth)
    (htopic : topic.all (fun c => !isLineTerminator c) = true) :
    ∀ a ∈ thinkPlanApproach topic d, a.all (fun c => !isLineTerminator c) = true := by
  have h : ∀ (s : String), ((strChars s).all (fun c => !isLineTerminator c)) = true →
      ((topic ++ strChars s).all (fun c => !isLineTerminator c)) = true := by
    intro s hs
    rw [List.all_append, htopic, hs]
    rfl
  cases d with
  | basic =>
      intro a ha
      simp only [thinkPlanApproach, List.mem_cons, List.not_mem_nil, or_false] at ha
      rcases ha with rfl | rfl <;> exact h _ (by decide)
  | moderate =>
      intro a ha
      simp only [thinkPlanApproach, List.cons_append, List.nil_append, List.mem_cons,
        List.not_mem_nil, or_false] at ha
      rcases ha with rfl | rfl | rfl | rfl | rfl <;> exact h _ (by decide)
  | comprehensive =>
      intro a ha
      simp only [thinkPlanApproach, List.cons_append, List.nil_append, List.mem_cons,
        List.not_mem_nil, or_false] at ha
      rcases ha with rfl | rfl | rfl | rfl | rfl | rfl | rfl | rfl | rfl | rfl | rfl <;>
        exact h _ (by decide)

theorem coverageThreshold_ge_60 (d : Depth) : 60 ≤ coverageThreshold d := by
  cases d <;> simp [coverageThreshold]

theorem minSourcesPerAspect_pos (d : Depth) : 0 < minSourcesPerAspect d := by
  cases d <;> simp [minSourcesPerAspect]

theorem calc_of_empty_sources (s : Session) (h : s.sources = []) :
    calculateCoverageScore s =
      min (jsRound ((s.memory.aspectsCovered.length : ℚ) /
        ((thinkPlanApproach s.topic s.depth).length : ℚ) * 50)) 100 := by
  unfold calculateCoverageScore
  rw [h]
  norm_num

theorem jsRound_cov_le_50 (c n : Nat) (hcn : c ≤ n) (hn : 0 < n) :
    jsRound ((c : ℚ) / (n : ℚ) * 50) ≤ 50 := by
  unfold jsRound
  have h1 : (c : ℚ) / (n : ℚ) ≤ 1 := by
    rw [div_le_one (by exact_mod_cast hn)]
    exact_mod_cast hcn
  have h2 : (c : ℚ) / (n : ℚ) * 50 + 1/2 ≤ 101/2 := by linarith
  calc ⌊(c : ℚ) / (n : ℚ) * 50 + 1/2⌋ ≤ ⌊(101 : ℚ)/2⌋ := Int.floor_le_floor h2
    _ = 50 := by norm_num

theorem jsRound_cov_pos (c n : Nat) (hc : 0 < c) (hn : 0 < n) (hn11 : n ≤ 11) :
    0 < jsRound ((c : ℚ) / (n : ℚ) * 50) := by
  unfold jsRound
  have hnq : (0 : ℚ) < (n : ℚ) := by exact_mod_cast hn
  have h1 : (1 : ℚ) ≤ (c : ℚ) := by exact_mod_cast hc
  have h2 : (n : ℚ) ≤ 11 := by exact_mod_cast hn11
  have h3 : (1 : ℚ) / 11 ≤ (c : ℚ) / (n : ℚ) := by
    have ha : (1 : ℚ) / 11 ≤ 1 / (n : ℚ) :=
      one_div_le_one_div_of_le hnq h2
    have hb : (1 : ℚ) / (n : ℚ) ≤ (c : ℚ) / (n : ℚ) := by
      apply div_le_div_of_nonneg_right h1 hnq.le
    linarith
  have h4 : (1 : ℚ) ≤ (c : ℚ) / (n : ℚ) * 50 + 1/2 := by nlinarith
  have := Int.le_floor.mpr (by exact_mod_cast h4 : ((1 : Int) : ℚ) ≤ (c : ℚ) / (n : ℚ) * 50 + 1/2)
  omega

theorem addCovered_nodup (c : List (List Char)) (a : List Char) (h : c.Nodup) :
    (addCovered c a).Nodup := by
  have h2 := nodup_map_key_insertAllBy (fun x => x) [a] c (by rwa [map_identity])
  rw [map_identity] at h2
  exact h2

theorem foldl_mergeSubagent_sources_nil (l : List Subagent) : ∀ s : Session,
    (∀ sa ∈ l, sa.sources = []) → (l.foldl mergeSubagent s).sources = s.sources := by
  induction l with
  | nil => intro s _; rfl
  | cons sa l ih =>
      intro s h
      rw [List.foldl_cons]
      have hstep : (mergeSubagent s sa).sources = s.sources := by
        simp [mergeSubagent, h sa (by simp), mergeSourceList, insertAllBy]
      rw [ih (mergeSubagent s sa) (fun sb hsb => h sb (by simp [hsb])), hstep]

theorem foldl_mergeSubagent_covered_sub (l : List Subagent) : ∀ s : Session,
    ∀ a ∈ (l.foldl mergeSubagent s).memory.aspectsCovered,
      a ∈ s.memory.aspectsCovered ∨ ∃ sa ∈ l, a = sa.aspect := by
  induction l with
  | nil => intro s a ha; exact Or.inl ha
  | cons sa l ih =>
      intro s a ha
      rw [List.foldl_cons] at ha
      rcases ih (mergeSubagent s sa) a ha with h | h
      · rcases (mem_addCovered_iff s.memory.aspectsCovered sa.aspect a).mp
          (by simpa [mergeSubagent] using h) with h2 | h2
        · exact Or.inl h2
        · exact Or.inr ⟨sa, by simp, h2⟩
      · rcases h with ⟨sb, hsb, hab⟩
        exact Or.inr ⟨sb, by simp [hsb], hab⟩

theorem foldl_mergeSubagent_covered_nodup (l : List Subagent) : ∀ s : Session,
    s.memory.aspectsCovered.Nodup →
    (l.foldl mergeSubagent s).memory.aspectsCovered.Nodup := by
  induction l with
  | nil => intro s h; exact h
  | cons sa l ih =>
      intro s h
      rw [List.foldl_cons]
      refine ih (mergeSubagent s sa) ?_
      simpa [mergeSubagent] using addCovered_nodup _ sa.aspect h

theorem gapsForAspect_empty_sources (s : Session) (h : s.sources = []) (a : List Char) :
    gapsForAspect s a =
      if a ∈ s.memory.aspectsCovered then
        [insufficientGapFor a] ++
          (if s.depth = Depth.comprehensive then [noPrimaryGapFor a] else [])
      else [missingGapFor a] := by
  unfold gapsForAspect
  rw [h]
  by_cases hc : a ∈ s.memory.aspectsCovered
  · rw [if_pos hc, if_pos hc]
    by_cases hd : s.depth = Depth.comprehensive
    · simp [hd, minSourcesPerAspect]
    · simp [hd, minSourcesPerAspect_pos s.depth]
  · rw [if_neg hc, if_neg hc]

theorem identifyGaps_form (s : Session) (h : s.sources = []) :
    ∀ g ∈ identifyGaps s, ∃ a ∈ thinkPlanApproach s.topic s.depth,
      g = missingGapFor a ∨ g = insufficientGapFor a ∨ g = noPrimaryGapFor a := by
  intro g hg
  unfold identifyGaps at hg
  rcases List.mem_flatMap.mp hg with ⟨a, ha, hga⟩
  refine ⟨a, ha, ?_⟩
  rw [gapsForAspect_empty_sources s h] at hga
  by_cases hc : a ∈ s.memory.aspectsCovered
  · rw [if_pos hc] at hga
    rcases List.mem_append.mp hga with h2 | h2
    · exact Or.inr (Or.inl (List.mem_singleton.mp h2))
    · by_cases hd : s.depth = Depth.comprehensive
      · rw [if_pos hd] at h2
        exact Or.inr (Or.inr (List.mem_singleton.mp h2))
      · rw [if_neg hd] at h2
        exact absurd h2 (List.not_mem_nil g)
  · rw [if_neg hc] at hga
    exact Or.inl (List.mem_singleton.mp hga)

theorem identifyGaps_head_ex (s : Session) (h : s.sources = []) :
    ∃ a ∈ thinkPlanApproach s.topic s.depth,
      missingGapFor a ∈ identifyGaps s ∨ insufficientGapFor a ∈ identifyGaps s := by
  rcases List.exists_cons_of_ne_nil (plan_ne_nil s.topic s.depth) with ⟨a, rest, hplan⟩
  refine ⟨a, by rw [hplan]; simp, ?_⟩
  have hmem : ∀ g ∈ gapsForAspect s a, g ∈ identifyGaps s := by
    intro g hg
    unfold identifyGaps
    exact List.mem_flatMap.mpr ⟨a, by rw [hplan]; simp, hg⟩
  rw [gapsForAspect_empty_sources s h] at hmem
  by_cases hc : a ∈ s.memory.aspectsCovered
  · rw [if_pos hc] at hmem
    exact Or.inr (hmem _ (by simp))
  · rw [if_neg hc] at hmem
    exact Or.inl (hmem _ (by simp))

theorem eval_fst_gaps (s : Session) :
    (thinkSynthesizeAndEvaluate s).1.memory.gaps = identifyGaps (mergeStep s) := rfl

theorem eval_snd_coverage (s : Session) :
    (thinkSynthesizeAndEvaluate s).2.coverageScore =
      calculateCoverageScore (mergeStep s) := rfl

theorem eval_empty_step (plan : List (List Char)) (s : Session)
    (hplan : plan = thinkPlanApproach s.topic s.depth)
    (hsources : s.sources = [])
    (hsubs : ∀ sa ∈ s.subagents, sa.sources = [] ∧ sa.aspect ∈ plan)
    (hcovsub : ∀ a ∈ s.memory.aspectsCovered, a ∈ plan)
    (hcovnodup : s.memory.aspectsCovered.Nodup)
    (hsubne : s.subagents ≠ []) :
    (thinkSynthesizeAndEvaluate s).1.sources = [] ∧
    (∀ a ∈ (thinkSynthesizeAndEvaluate s).1.memory.aspectsCovered, a ∈ plan) ∧
    (thinkSynthesizeAndEvaluate s).1.memory.aspectsCovered.Nodup ∧
    (∀ g ∈ (thinkSynthesizeAndEvaluate s).1.memory.gaps,
      ∃ a ∈ plan, g = missingGapFor a ∨ g = insufficientGapFor a ∨ g = noPrimaryGapFor a) ∧
    (∃ a ∈ plan, missingGapFor a ∈ (thinkSynthesizeAndEvaluate s).1.memory.gaps ∨
      insufficientGapFor a ∈ (thinkSynthesizeAndEvaluate s).1.memory.gaps) ∧
    0 < (thinkSynthesizeAndEvaluate s).2.coverageScore ∧
    (s.iteration ≥ s.maxIterations - 1 →
      (thinkSynthesizeAndEvaluate s).2.decision = Decision.exit ∧
      (thinkSynthesizeAndEvaluate s).2.reasoning =
        maxIterationsReasoning s.maxIterations (thinkSynthesizeAndEvaluate s).2.coverageScore) ∧
    (¬ s.iteration ≥ s.maxIterations - 1 →
      (thinkSynthesizeAndEvaluate s).2.decision = Decision.cont) := by
  have hmsrc : (mergeStep s).sources = [] := by
    rw [mergeStep, foldl_mergeSubagent_sources_nil s.subagents s
      (fun sa h => (hsubs sa h).1)]
    exact hsources
  have hmtopic := mergeStep_topic s
  have hmdepth := mergeStep_depth s
  have hmmax := mergeStep_maxIterations s
  have hmcovsub : ∀ a ∈ (mergeStep s).memory.aspectsCovered, a ∈ plan := by
    intro a ha
    rcases foldl_mergeSubagent_covered_sub s.subagents s a ha with h | ⟨sa, hsa, hab⟩
    · exact hcovsub a h
    · exact hab ▸ (hsubs sa hsa).2
  have hmcovnodup : (mergeStep s).memory.aspectsCovered.Nodup :=
    foldl_mergeSubagent_covered_nodup s.subagents s hcovnodup
  have hmcovne : (mergeStep s).memory.aspectsCovered ≠ [] := by
    rcases List.exists_mem_of_ne_nil s.subagents hsubne with ⟨sa, hsa⟩
    exact List.ne_nil_of_mem (foldl_mergeSubagent_lands s.subagents s sa hsa).2
  have hplan_m : plan = thinkPlanApproach (mergeStep s).topic (mergeStep s).depth := by
    rw [hmtopic, hmdepth]; exact hplan
  have hn := plan_length_bounds s.topic s.depth
  have hcle : (mergeStep s).memory.aspectsCovered.length ≤ plan.length := by
    have hsub : (mergeStep s).memory.aspectsCovered ⊆ plan := fun a => hmcovsub a
    exact (List.Nodup.subperm hmcovnodup hsub).length_le
  have hcpos : 0 < (mergeStep s).memory.aspectsCovered.length :=
    List.length_pos.mpr hmcovne
  have hcoveq : calculateCoverageScore (mergeStep s) =
      jsRound (((mergeStep s).memory.aspectsCovered.length : ℚ) /
        (plan.length : ℚ) * 50) := by
    rw [calc_of_empty_sources (mergeStep s) hmsrc, ← hplan_m]
    refine min_eq_left ?_
    refine le_trans (jsRound_cov_le_50 _ plan.length hcle (by rw [hplan]; exact hn.1)) ?_
    norm_num
  have hcov50 : calculateCoverageScore (mergeStep s) ≤ 50 := by
    rw [hcoveq]
    exact jsRound_cov_le_50 _ _ hcle (by rw [hplan]; exact hn.1)
  have hcovpos : 0 < calculateCoverageScore (mergeStep s) := by
    rw [hcoveq]
    exact jsRound_cov_pos _ _ hcpos (by rw [hplan]; exact hn.1) (by rw [hplan]; exact hn.2)
  have hA : ¬ (calculateCoverageScore (mergeStep s) ≥ coverageThreshold (mergeStep s).depth ∧
      (mergeStep s).sources.length ≥
        minSourcesPerAspect (mergeStep s).depth * (aspectsResearchedOf s).length) := by
    rintro ⟨h1, _⟩
    have h60 := coverageThreshold_ge_60 (mergeStep s).depth
    omega
  have hgform : ∀ g ∈ identifyGaps (mergeStep s),
      ∃ a ∈ plan, g = missingGapFor a ∨ g = insufficientGapFor a ∨ g = noPrimaryGapFor a := by
    intro g hg
    rcases identifyGaps_form (mergeStep s) hmsrc g hg with ⟨a, ha, hforms⟩
    exact ⟨a, by rw [hplan_m]; exact ha, hforms⟩
  have hgex : ∃ a ∈ plan, missingGapFor a ∈ identifyGaps (mergeStep s) ∨
      insufficientGapFor a ∈ identifyGaps (mergeStep s) := by
    rcases identifyGaps_head_ex (mergeStep s) hmsrc with ⟨a, ha, hmem⟩
    exact ⟨a, by rw [hplan_m]; exact ha, hmem⟩
  have hgne : identifyGaps (mergeStep s) ≠ [] := by
    rcases hgex with ⟨a, _, h | h⟩ <;> exact List.ne_nil_of_mem h
  refine ⟨eval_fst_sources s ▸ hmsrc,
    (eval_fst_covered s) ▸ hmcovsub,
    (eval_fst_covered s) ▸ hmcovnodup,
    (eval_fst_gaps s) ▸ hgform,
    (eval_fst_gaps s) ▸ hgex,
    (eval_snd_coverage s) ▸ hcovpos, ?_, ?_⟩
  · intro hge
    rw [eval_snd_eq]
    simp only [evalResultOf]
    rw [if_neg hA, if_pos (by rw [hmmax]; exact hge)]
    exact ⟨rfl, by rw [hmmax]⟩
  · intro hlt
    rw [eval_snd_eq]
    simp only [evalResultOf]
    rw [if_neg hA, if_neg (by rw [hmmax]; exact hlt), if_neg hgne]

theorem getAspects_subset (s : Session) (plan : List (List Char))
    (hplan : plan = thinkPlanApproach s.topic s.depth)
    (hpterm : ∀ a ∈ plan, a.all (fun c => !isLineTerminator c) = true)
    (hgform : ∀ g ∈ s.memory.gaps, ∃ a ∈ plan,
      g = missingGapFor a ∨ g = insufficientGapFor a ∨ g = noPrimaryGapFor a) :
    ∀ a ∈ getAspectsForIteration s plan, a ∈ plan := by
  intro a ha
  unfold getAspectsForIteration at ha
  by_cases h0 : s.iteration = 0
  · rw [if_pos h0] at ha
    exact List.mem_of_mem_filter (List.take_subset _ _ ha)
  · rw [if_neg h0] at ha
    have h2 := jsDedup_subset _ _ (List.take_subset _ _ ha)
    rcases List.mem_append.mp h2 with h3 | h3
    · rcases List.mem_filterMap.mp h3 with ⟨g, hgmem, hparse⟩
      rcases hgform g (List.mem_of_mem_filter hgmem) with ⟨b, hb, hform⟩
      have hbne : b ≠ [] := by
        rw [hplan] at hb
        exact plan_aspect_ne_nil s.topic s.depth b hb
      have hbterm := hpterm b hb
      rcases hform with rfl | rfl | rfl
      · rw [missingGapFor, parseGap_missing b hbne hbterm] at hparse
        exact (Option.some_injective _ hparse).symm ▸ hb
      · rw [insufficientGapFor, parseGap_insufficient b hbne hbterm] at hparse
        exact (Option.some_injective _ hparse).symm ▸ hb
      · rw [noPrimaryGapFor, parseGap_noPrimary b hbne hbterm] at hparse
        exact (Option.some_injective _ hparse).symm ▸ hb
    · exact List.mem_of_mem_filter h3

theorem getAspects_ne_nil (s : Session) (plan : List (List Char))
    (hplan : plan = thinkPlanApproach s.topic s.depth)
    (hpterm : ∀ a ∈ plan, a.all (fun c => !isLineTerminator c) = true)
    (hiter0 : s.iteration = 0 → s.memory.aspectsCovered = [])
    (hgex : 0 < s.iteration → ∃ a ∈ plan,
      missingGapFor a ∈ s.memory.gaps ∨ insufficientGapFor a ∈ s.memory.gaps) :
    getAspectsForIteration s plan ≠ [] := by
  have hpne : plan ≠ [] := hplan ▸ plan_ne_nil s.topic s.depth
  unfold getAspectsForIteration
  by_cases h0 : s.iteration = 0
  · rw [if_pos h0, hiter0 h0]
    have hfilt : plan.filter (fun a => decide (¬ a ∈ ([] : List (List Char)))) = plan :=
      List.filter_eq_self.mpr (fun a _ => by simp)
    rw [hfilt]
    intro hc
    rcases List.take_eq_nil_iff.mp hc with h | h
    · rcases Nat.min_eq_zero_iff.mp h with h2 | h2
      · omega
      · exact hpne (List.length_eq_zero.mp h2)
    · exact hpne h
  · rw [if_neg h0]
    have hpos : 0 < s.iteration := Nat.pos_of_ne_zero h0
    rcases hgex hpos with ⟨a, ha, hcase⟩
    have hane : a ≠ [] := by
      rw [hplan] at ha
      exact plan_aspect_ne_nil s.topic s.depth a ha
    have haterm := hpterm a ha
    have hmem : a ∈ (s.memory.gaps.filter fun g =>
        containsSub (strChars "Missing coverage") g ||
          containsSub (strChars "Insufficient") g).filterMap parseGap := by
      rcases hcase with h | h
      · refine List.mem_filterMap.mpr ⟨missingGapFor a, List.mem_filter.mpr ⟨h, ?_⟩, ?_⟩
        · rw [missingGapFor, containsSub_missing]
          simp
        · rw [missingGapFor]
          exact parseGap_missing a hane haterm
      · refine List.mem_filterMap.mpr ⟨insufficientGapFor a, List.mem_filter.mpr ⟨h, ?_⟩, ?_⟩
        · rw [insufficientGapFor, containsSub_insufficient]
          simp
        · rw [insufficientGapFor]
          exact parseGap_insufficient a hane haterm
    intro hc
    have hdne : jsDedup ((s.memory.gaps.filter fun g =>
        containsSub (strChars "Missing coverage") g ||
          containsSub (strChars "Insufficient") g).filterMap parseGap ++
        plan.filter (fun b => decide (¬ b ∈ s.memory.aspectsCovered))) ≠ [] := by
      refine jsDedup_ne_nil _ ?_
      intro hnil
      rcases List.append_eq_nil.mp hnil with ⟨h1, _⟩
      rw [h1] at hmem
      exact List.not_mem_nil a hmem
    rcases List.take_eq_nil_iff.mp hc with h | h
    · rcases Nat.min_eq_zero_iff.mp h with h2 | h2
      · omega
      · exact hdne (List.length_eq_zero.mp h2)
    · exact hdne h

theorem runLoop_empty_spec (fuel : Nat) : ∀ (plan : List (List Char)) (s : Session),
    plan = thinkPlanApproach s.topic s.depth →
    (∀ a ∈ plan, a.all (fun c => !isLineTerminator c) = true) →
    s.sources = [] →
    (∀ sa ∈ s.subagents, sa.sources = [] ∧ sa.aspect ∈ plan) →
    (∀ a ∈ s.memory.aspectsCovered, a ∈ plan) →
    s.memory.aspectsCovered.Nodup →
    s.memory.iterationHistory.length = s.iteration →
    (s.iteration = 0 → s.memory.aspectsCovered = []) →
    (0 < s.iteration → ∃ a ∈ plan,
      missingGapFor a ∈ s.memory.gaps ∨ insufficientGapFor a ∈ s.memory.gaps) →
    (∀ g ∈ s.memory.gaps, ∃ a ∈ plan,
      g = missingGapFor a ∨ g = insufficientGapFor a ∨ g = noPrimaryGapFor a) →
    s.iteration < s.maxIterations →
    fuel = s.maxIterations - s.iteration →
    (runLoopEmptySearch fuel plan s).sources = [] ∧
    (runLoopEmptySearch fuel plan s).memory.iterationHistory.length = s.maxIterations ∧
    ∃ r : IterationResult,
      (runLoopEmptySearch fuel plan s).memory.iterationHistory.getLast? = some r ∧
      r.decision = Decision.exit ∧ 0 < r.coverageScore ∧
      r.reasoning = maxIterationsReasoning s.maxIterations r.coverageScore := by
  induction fuel with
  | zero =>
      intro plan s _ _ _ _ _ _ _ _ _ _ hlt hfuel
      omega
  | succ fuel ih =>
      intro plan s hplan hpterm hsrc hsubs hcovs hcovn hhist hi0 hgex hgform hlt hfuel
      have hne : getAspectsForIteration s plan ≠ [] :=
        getAspects_ne_nil s plan hplan hpterm hi0 hgex
      have hsubsetIter : ∀ a ∈ getAspectsForIteration s plan, a ∈ plan :=
        getAspects_subset s plan hplan hpterm hgform
      -- the session handed to the evaluation step
      have hPsubs : ∀ sa ∈ (researchPassEmptySearch s plan).subagents,
          sa.sources = [] ∧ sa.aspect ∈ plan := by
        intro sa hsa
        rcases List.mem_append.mp hsa with h | h
        · exact hsubs sa h
        · rcases List.mem_map.mp h with ⟨a, ha, hmap⟩
          refine ⟨by rw [← hmap]; rfl, ?_⟩
          rw [← hmap]
          exact hsubsetIter a ha
      have hPsubne : (researchPassEmptySearch s plan).subagents ≠ [] := by
        intro hnil
        rcases List.append_eq_nil.mp hnil with ⟨_, h2⟩
        exact hne (List.map_eq_nil_iff.mp h2)
      have HE := eval_empty_step plan (researchPassEmptySearch s plan)
        hplan hsrc hPsubs hcovs hcovn hPsubne
      obtain ⟨hs2src, hs2cov, hs2covn, hs2gform, hs2gex, hcovpos, hexit, hcont⟩ := HE
      have hne2 : ¬ (getAspectsForIteration { s with status := Status.researching } plan = []) :=
        hne
      rw [runLoopEmptySearch, if_pos hlt, if_neg hne2]
      have hhist2 : (thinkSynthesizeAndEvaluate
          (researchPassEmptySearch s plan)).1.memory.iterationHistory =
          s.memory.iterationHistory ++
            [(thinkSynthesizeAndEvaluate (researchPassEmptySearch s plan)).2] :=
        eval_fst_history (researchPassEmptySearch s plan)
      by_cases hge : s.iteration ≥ s.maxIterations - 1
      · have hdec := hexit hge
        rw [if_pos hdec.1]
        refine ⟨hs2src, ?_, ?_⟩
        · rw [hhist2]
          simp only [List.length_append, List.length_cons, List.length_nil, hhist]
          omega
        · refine ⟨(thinkSynthesizeAndEvaluate (researchPassEmptySearch s plan)).2, ?_,
            hdec.1, hcovpos, hdec.2⟩
          rw [hhist2]
          exact List.getLast?_concat _
      · have hdec := hcont hge
        rw [if_neg (by rw [hdec]; simp)]
        have hiterP : (thinkSynthesizeAndEvaluate
            (researchPassEmptySearch s plan)).1.iteration = s.iteration :=
          eval_fst_iteration (researchPassEmptySearch s plan)
        have hmaxP : ({ (thinkSynthesizeAndEvaluate (researchPassEmptySearch s plan)).1 with
            iteration := (thinkSynthesizeAndEvaluate
              (researchPassEmptySearch s plan)).1.iteration + 1 } : Session).maxIterations =
            s.maxIterations :=
          eval_fst_maxIterations (researchPassEmptySearch s plan)
        have htopicP : (thinkSynthesizeAndEvaluate
            (researchPassEmptySearch s plan)).1.topic = s.topic :=
          eval_fst_topic (researchPassEmptySearch s plan)
        have hdepthP : (thinkSynthesizeAndEvaluate
            (researchPassEmptySearch s plan)).1.depth = s.depth :=
          eval_fst_depth (researchPassEmptySearch s plan)
        have hplan3 : plan = thinkPlanApproach
            ({ (thinkSynthesizeAndEvaluate (researchPassEmptySearch s plan)).1 with
              iteration := (thinkSynthesizeAndEvaluate
                (researchPassEmptySearch s plan)).1.iteration + 1 } : Session).topic
            ({ (thinkSynthesizeAndEvaluate (researchPassEmptySearch s plan)).1 with
              iteration := (thinkSynthesizeAndEvaluate
                (researchPassEmptySearch s plan)).1.iteration + 1 } : Session).depth := by
          show plan = thinkPlanApproach
            (thinkSynthesizeAndEvaluate (researchPassEmptySearch s plan)).1.topic
            (thinkSynthesizeAndEvaluate (researchPassEmptySearch s plan)).1.depth
          rw [htopicP, hdepthP]
          exact hplan
        have hsub3 : ∀ sa ∈ ({ (thinkSynthesizeAndEvaluate (researchPassEmptySearch s plan)).1 with
            iteration := (thinkSynthesizeAndEvaluate
              (researchPassEmptySearch s plan)).1.iteration + 1 } : Session).subagents,
            sa.sources = [] ∧ sa.aspect ∈ plan := by
          intro sa hsa
          have hsa2 : sa ∈ (thinkSynthesizeAndEvaluate
              (researchPassEmptySearch s plan)).1.subagents := hsa
          rw [eval_fst_subagents] at hsa2
          exact hPsubs sa hsa2
        have hhist3 : ({ (thinkSynthesizeAndEvaluate (researchPassEmptySearch s plan)).1 with
            iteration := (thinkSynthesizeAndEvaluate
              (researchPassEmptySearch s plan)).1.iteration + 1 } : Session).memory.iterationHistory.length =
            ({ (thinkSynthesizeAndEvaluate (researchPassEmptySearch s plan)).1 with
              iteration := (thinkSynthesizeAndEvaluate
                (researchPassEmptySearch s plan)).1.iteration + 1 } : Session).iteration := by
          show (thinkSynthesizeAndEvaluate
              (researchPassEmptySearch s plan)).1.memory.iterationHistory.length =
            (thinkSynthesizeAndEvaluate (researchPassEmptySearch s plan)).1.iteration + 1
          rw [hhist2, hiterP]
          simp only [List.length_append, List.length_cons, List.length_nil, hhist]
        have hlt3 : ({ (thinkSynthesizeAndEvaluate (researchPassEmptySearch s plan)).1 with
            iteration := (thinkSynthesizeAndEvaluate
              (researchPassEmptySearch s plan)).1.iteration + 1 } : Session).iteration <
            ({ (thinkSynthesizeAndEvaluate (researchPassEmptySearch s plan)).1 with
              iteration := (thinkSynthesizeAndEvaluate
                (researchPassEmptySearch s plan)).1.iteration + 1 } : Session).maxIterations := by
          show (thinkSynthesizeAndEvaluate (researchPassEmptySearch s plan)).1.iteration + 1 <
            (thinkSynthesizeAndEvaluate (researchPassEmptySearch s plan)).1.maxIterations
          rw [hiterP, eval_fst_maxIterations]
          show s.iteration + 1 < s.maxIterations
          omega
        have hfuel3 : fuel = ({ (thinkSynthesizeAndEvaluate (researchPassEmptySearch s plan)).1 with
            iteration := (thinkSynthesizeAndEvaluate
              (researchPassEmptySearch s plan)).1.iteration + 1 } : Session).maxIterations -
            ({ (thinkSynthesizeAndEvaluate (researchPassEmptySearch s plan)).1 with
              iteration := (thinkSynthesizeAndEvaluate
                (researchPassEmptySearch s plan)).1.iteration + 1 } : Session).iteration := by
          show fuel = (thinkSynthesizeAndEvaluate (researchPassEmptySearch s plan)).1.maxIterations -
            ((thinkSynthesizeAndEvaluate (researchPassEmptySearch s plan)).1.iteration + 1)
          rw [hiterP, eval_fst_maxIterations]
          show fuel = s.maxIterations - (s.iteration + 1)
          omega
        have H := ih plan
          { (thinkSynthesizeAndEvaluate (researchPassEmptySearch s plan)).1 with
            iteration :=
              (thinkSynthesizeAndEvaluate (researchPassEmptySearch s plan)).1.iteration + 1 }
          hplan3
          hpterm
          hs2src
          hsub3
          hs2cov
          hs2covn
          hhist3
          (by intro h
              rw [show ({ (thinkSynthesizeAndEvaluate (researchPassEmptySearch s plan)).1 with
                iteration := (thinkSynthesizeAndEvaluate
                  (researchPassEmptySearch s plan)).1.iteration + 1 } : Session).iteration =
                (thinkSynthesizeAndEvaluate
                  (researchPassEmptySearch s plan)).1.iteration + 1 from rfl] at h
              omega)
          (fun _ => hs2gex)
          hs2gform
          hlt3
          hfuel3
        obtain ⟨H1, H2, r, H3, H4, H5, H6⟩ := H
        refine ⟨H1, ?_, r, H3, H4, H5, ?_⟩
        · rw [H2, hmaxP]
        · rw [H6, hmaxP]

theorem runEmptySearch_empty_spec (topic : List Char) (depth : Depth)
    (htopic : topic.all (fun c => !isLineTerminator c) = true) :
    (runEmptySearch topic depth).status = Status.completed ∧
    (runEmptySearch topic depth).sources = [] ∧
    (runEmptySearch topic depth).memory.iterationHistory.length = maxIterationsFor depth ∧
    ∃ r : IterationResult,
      (runEmptySearch topic depth).memory.iterationHistory.getLast? = some r ∧
      r.decision = Decision.exit ∧
      0 < r.coverageScore ∧
      r.reasoning = maxIterationsReasoning (maxIterationsFor depth) r.coverageScore := by
  have hstatus : (runEmptySearch topic depth).status = Status.completed := rfl
  have hsources : (runEmptySearch topic depth).sources =
      citationAgentProcess (runLoopEmptySearch (maxIterationsFor depth)
        (thinkPlanApproach topic depth)
        (savePlanToMemory { createSession topic depth with status := Status.planning }
          (thinkPlanApproach topic depth))).sources := rfl
  have hmemory : (runEmptySearch topic depth).memory =
      (runLoopEmptySearch (maxIterationsFor depth)
        (thinkPlanApproach topic depth)
        (savePlanToMemory { createSession topic depth with status := Status.planning }
          (thinkPlanApproach topic depth))).memory := rfl
  have hspec := runLoop_empty_spec (maxIterationsFor depth)
    (thinkPlanApproach topic depth)
    (savePlanToMemory { createSession topic depth with status := Status.planning }
      (thinkPlanApproach topic depth))
    rfl
    (plan_aspect_no_terminator topic depth htopic)
    rfl
    (by intro sa hsa; exact absurd hsa (List.not_mem_nil sa))
    (by intro a ha; exact absurd ha (List.not_mem_nil a))
    List.nodup_nil
    rfl
    (fun _ => rfl)
    (by intro h; exact absurd h (Nat.lt_irrefl 0))
    (by intro g hg; exact absurd hg (List.not_mem_nil g))
    (by show 0 < maxIterationsFor depth; cases depth <;> decide)
    rfl
  obtain ⟨hA, hB, r, hC, hD, hE, hF⟩ := hspec
  refine ⟨hstatus, ?_, ?_, r, ?_, hD, hE, hF⟩
  · rw [hsources, hA]
    rfl
  · rw [hmemory]
    exact hB
  · rw [hmemory]
    exact hC

/-- C1 (amended): if every search returns an empty result list and the
topic contains no line terminator, the multi-agent research run terminates
with the session in status `completed`, with zero sources, with one
IterationResult appended per allowed iteration, and with the final
IterationResult an `exit` whose reasoning documents that max iterations
were reached — but its coverage score is strictly positive
(`50 × coveredAspects / totalPlannedAspects`, rounded), not 0, because
aspects researched by empty-handed subagents are still marked covered.
(For a topic containing a line terminator the `/: (.+)$/` gap parse never
matches, so the loop instead runs out of aspects and stops early.) -/
theorem c1_empty_search_run (topic : List Char) (depth : Depth)
    (htopic : topic.all (fun c => !isLineTerminator c) = true) :
    (runEmptySearch topic depth).status = Status.completed ∧
    (runEmptySearch topic depth).sources = [] ∧
    (runEmptySearch topic depth).memory.iterationHistory.length = maxIterationsFor depth ∧
    ∃ r : IterationResult,
      (runEmptySearch topic depth).memory.iterationHistory.getLast? = some r ∧
      r.decision = Decision.exit ∧
      0 < r.coverageScore ∧
      r.reasoning = maxIterationsReasoning (maxIterationsFor depth) r.coverageScore :=
  runEmptySearch_empty_spec topic depth htopic

/-- C1 counterexample: for the concrete topic `ai` at depth `basic` with
every search empty, the run reaches `completed` with zero sources but the
final IterationResult's coverage score is strictly positive — not 0 as the
claim states (the two researched aspects count as covered, giving 50). -/
theorem c1_counterexample :
    ∃ r : IterationResult,
      (runEmptySearch (strChars "ai") Depth.basic).memory.iterationHistory.getLast? =
        some r ∧
      0 < r.coverageScore ∧
      (runEmptySearch (strChars "ai") Depth.basic).status = Status.completed ∧
      (runEmptySearch (strChars "ai") Depth.basic).sources = [] := by
  obtain ⟨h1, h2, h3, r, h4, h5, h6, h7⟩ :=
    runEmptySearch_empty_spec (strChars "ai") Depth.basic (by decide)
  exact ⟨r, h4, h6, h1, h2⟩

/-- Witness for the C1 theorem at the concrete line-terminator-free topic
`ai` and depth `basic`: the run completes with zero sources and exactly
`maxIterations` IterationResults. -/
theorem c1_empty_search_run_witness :
    (runEmptySearch (strChars "ai") Depth.basic).status = Status.completed ∧
    (runEmptySearch (strChars "ai") Depth.basic).sources = [] ∧
    (runEmptySearch (strChars "ai") Depth.basic).memory.iterationHistory.length =
      maxIterationsFor Depth.basic := by
  have h := c1_empty_search_run (strChars "ai") Depth.basic (by decide)
  exact ⟨h.1, h.2.1, h.2.2.1⟩
